import Mathlib

/-!
# Verification of the log-analyzer normalization pipeline

A shallow embedding, in Lean 4, of the core of the `log-analyzer`
repository: the timestamp normalizer (`log_normalizer.js`), the shared
parser base class (`src/parsers/base-parser.js`), the format detector
(`src/parsers/format-detector.js`), the Renderer and MountApp format
parsers, the stream coordinator (`src/parsers/log-parser-manager.js`)
and the pattern/clustering engine (`LogAnalyzer`).

The JavaScript source operates on strings via regular expressions, so
the embedding starts with a small, total, backtracking matcher engine
whose combinators mirror the semantics of the concrete regexes used by
the source (greedy and lazy quantifiers over character classes, word
boundaries, optional groups, alternation).  Machine `Date` behaviour is
split into the deterministic, specification-mandated part (the
ECMAScript canonical date-time format with `Z` offset, and
`toISOString`), which is implemented concretely, and the
implementation-defined part (parsing of non-canonical strings, the host
time zone, and the current clock), which is abstracted into an explicit
`DateEnv` environment passed to every function that reads the clock or
parses a free-form date string.
-/

/-! ## Character classes (JS regex semantics, ASCII fragment)

The log formats and patterns in this repository are ASCII except for the
MountApp Chinese weekday tokens, which no character class in the source
ever has to classify, so the ASCII reading of `\d`, `\w`, `\s` used by
JS engines is modelled exactly on ASCII and conservatively (non-word,
non-space, non-digit) on all other code points apart from NBSP, which JS
counts as whitespace. -/

/-- JS `\d`. -/
def isDigitJS (c : Char) : Bool := c.isDigit

/-- JS `\w` = `[A-Za-z0-9_]`. -/
def isWordJS (c : Char) : Bool := c.isAlphanum || c = '_'

/-- JS `\s` (ASCII part plus NBSP). -/
def isSpaceJS (c : Char) : Bool :=
  c = ' ' || c = '\t' || c = '\n' || c = '\r' ||
  c = Char.ofNat 11 || c = Char.ofNat 12 || c = Char.ofNat 160

/-- JS `.` (no `s` flag): anything but a line terminator. -/
def isDotJS (c : Char) : Bool :=
  !(c = '\n' || c = '\r' || c.val = 0x2028 || c.val = 0x2029)

/-- Case-insensitive hex digit, for patterns compiled with the `i` flag. -/
def isHexJS (c : Char) : Bool :=
  c.isDigit || ('a' ≤ c && c ≤ 'f') || ('A' ≤ c && c ≤ 'F')

/-- JS `String.prototype.toUpperCase` restricted to the ASCII letters the
source ever feeds it (log level tokens). -/
def jsToUpperCase (s : String) : String := ⟨s.toList.map Char.toUpper⟩

/-- JS `String.prototype.trim` (`\s` at both ends). -/
def jsTrim (s : String) : String :=
  ⟨((s.toList.dropWhile isSpaceJS).reverse.dropWhile isSpaceJS).reverse⟩

/-! ## A total backtracking matcher engine

A matcher is written in continuation-passing style.  The continuation
receives the character just before the current position (for `\b`) and
the remaining input, and answers with the suffix left over after the
rest of the pattern, so combinators compose by function application and
backtracking is expressed by ordered alternatives, exactly the order a
JS engine explores: greedy quantifiers longest-first, lazy quantifiers
shortest-first, alternation left-first. -/

/-- Continuation: previous character, remaining input, resulting suffix. -/
def MatchK : Type := Option Char → List Char → Option (List Char)

/-- A matcher transforms the continuation for the rest of the pattern. -/
def Matcher : Type := MatchK → MatchK

/-- Match one character of class `p`. -/
def mcls (p : Char → Bool) : Matcher := fun k _ cs =>
  match cs with
  | [] => none
  | c :: rest => if p c then k (some c) rest else none

/-- Match a literal character. -/
def mch (c : Char) : Matcher := mcls (· = c)

/-- Sequencing. -/
def mseq (a b : Matcher) : Matcher := fun k => a (b k)

/-- Sequence a list of matchers. -/
def mseqs (l : List Matcher) : Matcher := l.foldr mseq (fun k => k)

/-- Match a literal string. -/
def mstr (s : String) : Matcher := mseqs (s.toList.map mch)

/-- `{n}`: exactly `n` characters of class `p`. -/
def mrep (p : Char → Bool) : Nat → Matcher
  | 0 => fun k => k
  | n + 1 => mseq (mcls p) (mrep p n)

/-- Greedy `+` over a class: longest run first, then backtrack. -/
def mplusGo (p : Char → Bool) (k : MatchK) : Option Char → List Char → Option (List Char) :=
  fun _ cs =>
    match cs with
    | [] => none
    | c :: rest =>
      if p c then
        match mplusGo p k (some c) rest with
        | some r => some r
        | none => k (some c) rest
      else none

/-- Greedy `+` over a character class. -/
def mplus (p : Char → Bool) : Matcher := fun k => mplusGo p k

/-- Greedily consume up to `hi` further characters of class `p`. -/
def mupToGo (p : Char → Bool) (k : MatchK) : Nat → Option Char → List Char → Option (List Char)
  | 0 => k
  | hi + 1 => fun prev cs =>
    match cs with
    | [] => k prev cs
    | c :: rest =>
      if p c then
        match mupToGo p k hi (some c) rest with
        | some r => some r
        | none => k prev cs
      else k prev cs

/-- `{lo,hi}` over a class, greedy. -/
def mrange (p : Char → Bool) (lo hi : Nat) : Matcher :=
  mseq (mrep p lo) (fun k => mupToGo p k (hi - lo))

/-- Lazy `*?` over a class: shortest first. -/
def mlazyGo (p : Char → Bool) (k : MatchK) : Option Char → List Char → Option (List Char) :=
  fun prev cs =>
    match k prev cs with
    | some r => some r
    | none =>
      match cs with
      | [] => none
      | c :: rest => if p c then mlazyGo p k (some c) rest else none

/-- Lazy `*?` over a character class. -/
def mlazy (p : Char → Bool) : Matcher := fun k => mlazyGo p k

/-- Greedy `?`. -/
def mopt (m : Matcher) : Matcher := fun k prev cs =>
  match m k prev cs with
  | some r => some r
  | none => k prev cs

/-- Alternation, left branch first. -/
def malt (a b : Matcher) : Matcher := fun k prev cs =>
  match a k prev cs with
  | some r => some r
  | none => b k prev cs

/-- First-match alternation over a list. -/
def malts (l : List Matcher) : Matcher := l.foldr malt (fun _ _ _ => none)

/-- JS `\b`. -/
def mbound : Matcher := fun k prev cs =>
  let before := match prev with | some c => isWordJS c | none => false
  let after := match cs with | c :: _ => isWordJS c | [] => false
  if before ≠ after then k prev cs else none

/-- Run a matcher at the current position; `some rest` is the unconsumed
suffix after a successful match. -/
def matchAt (m : Matcher) (prev : Option Char) (cs : List Char) : Option (List Char) :=
  m (fun _ rest => some rest) prev cs

/-- Leftmost search (JS `string.match(re)` without `g`): the matched
substring of the first position where the matcher succeeds. -/
def searchGo (m : Matcher) (prev : Option Char) (cs : List Char) : Option (List Char) :=
  match matchAt m prev cs with
  | some rest => some (cs.take (cs.length - rest.length))
  | none =>
    match cs with
    | [] => none
    | c :: rest => searchGo m (some c) rest

/-- JS `s.match(re)?.[0]`. -/
def jsSearch (m : Matcher) (s : String) : Option String :=
  (searchGo m none s.toList).map fun l => ⟨l⟩

/-- JS `re.test(s)`. -/
def jsTest (m : Matcher) (s : String) : Bool := (jsSearch m s).isSome

/-- Global replace worker.  Word boundaries are judged against the
original text (the engine scans the source string), and after a match
the scan resumes at the match end; the fuel is one more than the input
length, which every path strictly decreases. -/
def replaceGo (m : Matcher) (repl : List Char) : Nat → Option Char → List Char → List Char
  | 0, _, cs => cs
  | fuel + 1, prev, cs =>
    match matchAt m prev cs with
    | some rest =>
      if rest.length < cs.length then
        let last := match (cs.take (cs.length - rest.length)).getLast? with
          | some c => some c
          | none => prev
        repl ++ replaceGo m repl fuel last rest
      else
        match cs with
        | [] => []
        | c :: cs2 => c :: replaceGo m repl fuel (some c) cs2
    | none =>
      match cs with
      | [] => []
      | c :: cs2 => c :: replaceGo m repl fuel (some c) cs2

/-- JS `s.replace(re_with_g_flag, repl)` for a constant replacement. -/
def jsReplaceAll (m : Matcher) (repl : String) (s : String) : String :=
  ⟨replaceGo m repl.toList (s.toList.length + 1) none s.toList⟩

/-! ## ECMAScript time values

`Date` values are epoch milliseconds.  `toISOString` and the parsing of
the canonical `YYYY-MM-DDTHH:MM:SS.mmmZ` date-time string — the one
shape this repository itself synthesizes before handing it to
`new Date` — are mandated by the ECMAScript specification and are
implemented concretely.  Everything implementation-defined about `Date`
(parsing of free-form strings, the host time zone, the current clock)
lives in an explicit `DateEnv`. -/

/-- Civil date from days since the Unix epoch (proleptic Gregorian). -/
def civilFromDays (z0 : Int) : Int × Nat × Nat :=
  let z := z0 + 719468
  let era := Int.fdiv z 146097
  let doe := Int.toNat (Int.fmod z 146097)
  let yoe := (doe - doe / 1460 + doe / 36524 - doe / 146096) / 365
  let y := (yoe : Int) + era * 400
  let doy := doe - (365 * yoe + yoe / 4 - yoe / 100)
  let mp := (5 * doy + 2) / 153
  let d := doy - (153 * mp + 2) / 5 + 1
  let m := if mp < 10 then mp + 3 else mp - 9
  ((if m ≤ 2 then y + 1 else y), m, d)

/-- Days since the Unix epoch from a civil date. -/
def daysFromCivil (y : Int) (m d : Nat) : Int :=
  let y2 := if m ≤ 2 then y - 1 else y
  let era := Int.fdiv y2 400
  let yoe := Int.toNat (y2 - era * 400)
  let mp := if 2 < m then m - 3 else m + 9
  let doy := (153 * mp + 2) / 5 + d - 1
  let doe := yoe * 365 + yoe / 4 - yoe / 100 + doy
  era * 146097 + (doe : Int) - 719468

/-- Two-digit zero-padded decimal rendering. -/
def pad2 (n : Nat) : List Char := [Nat.digitChar (n / 10 % 10), Nat.digitChar (n % 10)]

/-- Three-digit zero-padded decimal rendering. -/
def pad3 (n : Nat) : List Char :=
  [Nat.digitChar (n / 100 % 10), Nat.digitChar (n / 10 % 10), Nat.digitChar (n % 10)]

/-- Four-digit zero-padded decimal rendering. -/
def pad4 (n : Nat) : List Char :=
  [Nat.digitChar (n / 1000 % 10), Nat.digitChar (n / 100 % 10), Nat.digitChar (n / 10 % 10),
   Nat.digitChar (n % 10)]

/-- Six-digit zero-padded decimal rendering (expanded years). -/
def pad6 (n : Nat) : List Char :=
  [Nat.digitChar (n / 100000 % 10), Nat.digitChar (n / 10000 % 10),
   Nat.digitChar (n / 1000 % 10), Nat.digitChar (n / 100 % 10), Nat.digitChar (n / 10 % 10),
   Nat.digitChar (n % 10)]

/-- `Date.prototype.toISOString`: UTC, `YYYY-MM-DDTHH:MM:SS.mmmZ`
(expanded-year form outside 0–9999).  Every field is rendered as a
fixed-width zero-padded decimal numeral, as the ECMAScript
specification prescribes. -/
def isoOfMillis (t : Int) : String :=
  let days := Int.fdiv t 86400000
  let msd := Int.toNat (Int.fmod t 86400000)
  let ymd := civilFromDays days
  let y := ymd.1
  let yearPart : List Char :=
    if 0 ≤ y ∧ y ≤ 9999 then pad4 y.toNat
    else if y < 0 then '-' :: pad6 (-y).toNat
    else '+' :: pad6 y.toNat
  ⟨yearPart ++ '-' :: pad2 ymd.2.1 ++ '-' :: pad2 ymd.2.2 ++ 'T' :: pad2 (msd / 3600000) ++
    ':' :: pad2 (msd / 60000 % 60) ++ ':' :: pad2 (msd / 1000 % 60) ++ '.' :: pad3 (msd % 1000) ++
    ['Z']⟩

/-- Gregorian leap year. -/
def isLeapYear (y : Nat) : Bool := (y % 4 = 0 && y % 100 ≠ 0) || y % 400 = 0

/-- Days in a month. -/
def daysInMonth (y m : Nat) : Nat :=
  if m = 2 then (if isLeapYear y then 29 else 28)
  else if m = 4 || m = 6 || m = 9 || m = 11 then 30
  else 31

/-- Decimal value of a digit character. -/
def digVal (c : Char) : Nat := c.toNat - 48

/-- Parse the canonical ECMAScript date-time string
`YYYY-MM-DDTHH:MM:SS.mmmZ` to a UTC time value, validating field ranges
the way V8 does (invalid calendar fields give an invalid date). -/
def isoZParse (s : String) : Option Int :=
  match s.toList with
  | [y1, y2, y3, y4, '-', o1, o2, '-', d1, d2, 'T',
     h1, h2, ':', i1, i2, ':', e1, e2, '.', f1, f2, f3, 'Z'] =>
    if ([y1, y2, y3, y4, o1, o2, d1, d2, h1, h2, i1, i2, e1, e2, f1, f2, f3].all
        isDigitJS) then
      let y := 1000 * digVal y1 + 100 * digVal y2 + 10 * digVal y3 + digVal y4
      let mo := 10 * digVal o1 + digVal o2
      let d := 10 * digVal d1 + digVal d2
      let h := 10 * digVal h1 + digVal h2
      let mi := 10 * digVal i1 + digVal i2
      let se := 10 * digVal e1 + digVal e2
      let ms := 100 * digVal f1 + 10 * digVal f2 + digVal f3
      if 1 ≤ mo && mo ≤ 12 && 1 ≤ d && d ≤ daysInMonth y mo &&
          h ≤ 23 && mi ≤ 59 && se ≤ 59 then
        some (daysFromCivil (y : Int) mo d * 86400000 +
          ((h * 3600000 + mi * 60000 + se * 1000 + ms : Nat) : Int))
      else none
    else none
  | _ => none

/-- The implementation-defined parts of the host `Date`: `parse` is the
engine-specific parse of a non-canonical date string (`none` = Invalid
Date), `localYear` is `getFullYear` in the host time zone, and
`nowMillis` is the current clock. -/
structure DateEnv where
  parse : String → Option Int
  localYear : Int → Int
  nowMillis : Int

/-- `new Date(string)`: the canonical format is parsed per the
ECMAScript specification, anything else falls back to the
implementation-defined parser. -/
def jsNewDate (env : DateEnv) (s : String) : Option Int :=
  match isoZParse s with
  | some ms => some ms
  | none => env.parse s

/-- A concrete environment for evaluating the embedding on closed
inputs: its engine-specific parser accepts nothing and its clock reads
the epoch. -/
def epochEnv : DateEnv := { parse := fun _ => none, localYear := fun _ => 1970, nowMillis := 0 }


/-- A concrete environment whose host time zone is UTC (its
`getFullYear` is the UTC year of the time value), whose engine-specific
parser accepts nothing, and whose clock reads the epoch. -/
def utcEnv : DateEnv :=
  { parse := fun _ => none
    localYear := fun t => (civilFromDays (Int.fdiv t 86400000)).1
    nowMillis := 0 }

/-- ECMAScript `TimeClip` applied by the `Date` constructor to a
numeric time value: time values beyond ±8.64e15 are an invalid date. -/
def jsDateFromMillis (x : Int) : Option Int :=
  if x.natAbs ≤ 8640000000000000 then some x else none

/-! ## `LogNormalizer` timestamp extraction (src/log_normalizer.js, lines 61-172) -/

namespace LogNormalizer

/-- Shorthand: `\d{n}`. -/
def dg (n : Nat) : Matcher := mrep isDigitJS n

/-- Shorthand: `\d{1,2}`. -/
def dg12 : Matcher := mrange isDigitJS 1 2

/-- Shorthand: `\s+`. -/
def sp : Matcher := mplus isSpaceJS

/-- `/\d{4}-\d{2}-\d{2}T\d{2}:\d{2}:\d{2}(?:\.\d{3})?(?:Z|[+-]\d{2}:\d{2})?/` -/
def tsPatIso : Matcher :=
  mseqs [dg 4, mch '-', dg 2, mch '-', dg 2, mch 'T', dg 2, mch ':', dg 2, mch ':', dg 2,
    mopt (mseqs [mch '.', dg 3]),
    mopt (malt (mch 'Z') (mseqs [malt (mch '+') (mch '-'), dg 2, mch ':', dg 2]))]

/-- `/\d{4}-\d{2}-\d{2}\s+\d{2}:\d{2}:\d{2}(?:\.\d{3})?/` -/
def tsPatStd : Matcher :=
  mseqs [dg 4, mch '-', dg 2, mch '-', dg 2, sp, dg 2, mch ':', dg 2, mch ':', dg 2,
    mopt (mseqs [mch '.', dg 3])]

/-- `/\d{4}-\d{2}-\d{2}\s+\d{2}:\d{2}:\d{2}/` -/
def tsPatSimple : Matcher :=
  mseqs [dg 4, mch '-', dg 2, mch '-', dg 2, sp, dg 2, mch ':', dg 2, mch ':', dg 2]

/-- `/\b\d{10}(?:\.\d{3})?\b/` -/
def tsPatUnix : Matcher :=
  mseqs [mbound, dg 10, mopt (mseqs [mch '.', dg 3]), mbound]

/-- `/\d{4}\/\d{1,2}\/\d{1,2}\s+\d{1,2}:\d{2}:\d{2}/` -/
def tsPatSlash : Matcher :=
  mseqs [dg 4, mch '/', dg12, mch '/', dg12, sp, dg12, mch ':', dg 2, mch ':', dg 2]

/-- `/\d{1,2}\/\d{1,2}\/\d{4}\s+\d{1,2}:\d{2}:\d{2}/` -/
def tsPatSlashUS : Matcher :=
  mseqs [dg12, mch '/', dg12, mch '/', dg 4, sp, dg12, mch ':', dg 2, mch ':', dg 2]

/-- `/\w{3}\s+\d{1,2}\s+\d{4}\s+\d{1,2}:\d{2}:\d{2}/` -/
def tsPatMonth : Matcher :=
  mseqs [mrep isWordJS 3, sp, dg12, sp, dg 4, sp, dg12, mch ':', dg 2, mch ':', dg 2]

/-- `/\d{8}\s+\d{6}/` -/
def tsPatCompact : Matcher := mseqs [dg 8, sp, dg 6]

/-- `/\d{4}-\d{2}-\d{2}\s+\d{2}:\d{2}:\d{2}\.\d{3}/` -/
def tsPatMs : Matcher :=
  mseqs [dg 4, mch '-', dg 2, mch '-', dg 2, sp, dg 2, mch ':', dg 2, mch ':', dg 2,
    mch '.', dg 3]

/-- `this.timestampPatterns`, in declaration order. -/
def timestampPatterns : List Matcher :=
  [tsPatIso, tsPatStd, tsPatSimple, tsPatUnix, tsPatSlash, tsPatSlashUS,
   tsPatMonth, tsPatCompact, tsPatMs]

/-- Decimal value of a digit list. -/
def digitsToNat (l : List Char) : Nat := l.foldl (fun a c => 10 * a + digVal c) 0

/-- `/^\d{10}(\.\d{3})?$/`: anchored Unix-seconds shape; yields whole
seconds and milliseconds (the effect of `parseFloat(ts) * 1000` on this
shape). -/
def unixParse (s : String) : Option Nat :=
  match s.toList with
  | [a, b, c, d, e, f, g, h, i, j] =>
    if ([a, b, c, d, e, f, g, h, i, j].all isDigitJS) then
      some (digitsToNat [a, b, c, d, e, f, g, h, i, j] * 1000)
    else none
  | [a, b, c, d, e, f, g, h, i, j, '.', x, y, z] =>
    if ([a, b, c, d, e, f, g, h, i, j, x, y, z].all isDigitJS) then
      some (digitsToNat [a, b, c, d, e, f, g, h, i, j] * 1000 + digitsToNat [x, y, z])
    else none
  | _ => none

/-- `/^\d{8}\s+\d{6}$/` with the compact-format recombination of
`normalizeTimestamp`: the ISO-like local string it builds. -/
def compactRebuild (s : String) : Option String :=
  match s.toList.span isDigitJS with
  | (date, rest) =>
    if date.length = 8 then
      match rest.span isSpaceJS with
      | (sps, time) =>
        if sps.length ≥ 1 ∧ time.length = 6 ∧ time.all isDigitJS then
          some (⟨date.take 4⟩ ++ "-" ++ ⟨(date.drop 4).take 2⟩ ++ "-" ++ ⟨date.drop 6⟩ ++
            "T" ++ ⟨time.take 2⟩ ++ ":" ++ ⟨(time.drop 2).take 2⟩ ++ ":" ++ ⟨time.drop 4⟩)
        else none
    else none

/-- `LogNormalizer.isValidTimestamp`.  The Unix branch constructs a date
from a finite number and only checks it for `NaN`; the general branch
parses the string and requires a local calendar year above 1970. -/
def isValidTimestamp (env : DateEnv) (timestamp : String) : Bool :=
  if timestamp = "" || timestamp = "unknown" then false
  else
    match unixParse timestamp with
    | some ms => (jsDateFromMillis (ms : Int)).isSome
    | none =>
      match jsNewDate env timestamp with
      | none => false
      | some t => decide (1970 < env.localYear t)

/-- `LogNormalizer.normalizeTimestamp`: renormalize a matched timestamp
fragment to UTC ISO 8601, or the `unknown` sentinel when the date is
invalid. -/
def normalizeTimestamp (env : DateEnv) (timestamp : String) : String :=
  if timestamp = "" || timestamp = "unknown" then "unknown"
  else
    let parsed : Option Int :=
      match unixParse timestamp with
      | some ms => jsDateFromMillis (ms : Int)
      | none =>
        match compactRebuild timestamp with
        | some rebuilt => jsNewDate env rebuilt
        | none =>
          if jsTest (mseqs [dg 4, mch '/', dg12, mch '/', dg12]) timestamp then
            jsNewDate env (jsReplaceAll (mch '/') "-" timestamp)
          else
            jsNewDate env timestamp
    match parsed with
    | none => "unknown"
    | some t => isoOfMillis t

/-- `LogNormalizer.extractTimestamp` inner loop over the pattern list:
the first structural match that validates is normalized; a match that
fails validation falls through to the next pattern. -/
def extractGo (env : DateEnv) (text : String) : List Matcher → String
  | [] => "unknown"
  | p :: ps =>
    match jsSearch p text with
    | some m => if isValidTimestamp env m then normalizeTimestamp env m else extractGo env text ps
    | none => extractGo env text ps

/-- `LogNormalizer.extractTimestamp` (src/log_normalizer.js, lines 92-108). -/
def extractTimestamp (env : DateEnv) (text : String) : String :=
  if text = "" then "unknown"
  else extractGo env text timestampPatterns

end LogNormalizer


/-! ## `BaseParser.normalizeLevel` (src/parsers/base-parser.js, lines 64-71) -/

namespace BaseParser

/-- The `validLevels` array of `normalizeLevel`. -/
def validLevels : List String :=
  ["DEBUG", "INFO", "WARN", "WARNING", "ERROR", "FATAL", "CRITICAL"]

/-- `BaseParser.normalizeLevel`.  A missing/empty level is falsy in JS and
yields INFO; otherwise the upper-cased level is returned unchanged when
it is in `validLevels`, then (unreachably, since WARNING is in
`validLevels`) aliased WARNING to WARN, and otherwise INFO. -/
def normalizeLevel (level : String) : String :=
  if level = "" then "INFO"
  else
    let normalized := jsToUpperCase level
    if validLevels.contains normalized then normalized
    else if normalized = "WARNING" then "WARN"
    else "INFO"

end BaseParser

/-! ## The normalized record and `BaseParser` (src/parsers/base-parser.js) -/

/-- One structured stack frame, as produced by `parseStackTrace`; the
`column` and `async` keys are present only on the frame shapes that
carry them. -/
structure StackFrame where
  function : String
  file : String
  line : Nat
  column : Option Nat := none
  async : Option Bool := none
deriving DecidableEq

/-- The `stack` member of an error object: the parsers store it as a
string, the stream coordinator overwrites it with the structured frame
list from `parseStackTrace`. -/
inductive StackVal where
  | str (s : String)
  | frames (l : List StackFrame)
deriving DecidableEq

/-- The `error` member of a normalized record; each key is optional
because the stream coordinator can create a fresh empty error object
and set only its `stack` member. -/
structure ErrVal where
  name : Option String := none
  message : Option String := none
  stack : Option StackVal := none
deriving DecidableEq

/-- The normalized log object built by `BaseParser.createStandardLog`,
generic over the per-parser shape `μ` of the `metadata` member; an
absent optional member is `none` (the source omits the key). -/
structure StandardLog (μ : Type) where
  timestamp : String
  level : String
  source : String
  module : String
  message : String
  error : Option ErrVal := none
  metadata : Option μ := none
  rawLine : Option String := none
  parseTime : String
deriving DecidableEq

/-- Consume exactly `n` digits. -/
def takeDigits : Nat → List Char → Option (List Char × List Char)
  | 0, cs => some ([], cs)
  | _ + 1, [] => none
  | n + 1, c :: cs =>
    if isDigitJS c then (takeDigits n cs).map (fun p => (c :: p.1, p.2)) else none

/-- Consume one expected literal character. -/
def expectCh (c : Char) : List Char → Option (List Char)
  | [] => none
  | x :: rest => if x = c then some rest else none

/-- Consume `\s+` (maximal run; the callers all follow it with a
character class disjoint from whitespace, so no backtracking arises). -/
def takeSpaces1 : List Char → Option (List Char)
  | [] => none
  | c :: rest => if isSpaceJS c then some (rest.dropWhile isSpaceJS) else none

namespace BaseParser

/-- The capture groups of
`/\[?(\d{4})-(\d{2})-(\d{2})\s+(\d{2}):(\d{2}):(\d{2})(?:\.(\d{3}))?\]?/`
tried at one position.  A leading `[` is consumed when present (if
consuming it fails the match, skipping it fails too, since `[` is not a
digit). -/
def bracketTsAt (cs0 : List Char) : Option (String × String × String × String × String ×
    String × Option String) :=
  let cs1 := match cs0 with | '[' :: r => r | _ => cs0
  match takeDigits 4 cs1 with
  | none => none
  | some (y, cs2) =>
  match expectCh '-' cs2 with
  | none => none
  | some cs3 =>
  match takeDigits 2 cs3 with
  | none => none
  | some (mo, cs4) =>
  match expectCh '-' cs4 with
  | none => none
  | some cs5 =>
  match takeDigits 2 cs5 with
  | none => none
  | some (d, cs6) =>
  match takeSpaces1 cs6 with
  | none => none
  | some cs7 =>
  match takeDigits 2 cs7 with
  | none => none
  | some (h, cs8) =>
  match expectCh ':' cs8 with
  | none => none
  | some cs9 =>
  match takeDigits 2 cs9 with
  | none => none
  | some (mi, cs10) =>
  match expectCh ':' cs10 with
  | none => none
  | some cs11 =>
  match takeDigits 2 cs11 with
  | none => none
  | some (se, cs12) =>
  let ms : Option String :=
    match cs12 with
    | '.' :: r =>
      (match takeDigits 3 r with
       | some (f, _) => some ⟨f⟩
       | none => none)
    | _ => none
  some (⟨y⟩, ⟨mo⟩, ⟨d⟩, ⟨h⟩, ⟨mi⟩, ⟨se⟩, ms)

/-- Leftmost search for the bracketed-timestamp groups. -/
def bracketTsSearch : List Char → Option (String × String × String × String × String ×
    String × Option String)
  | [] => none
  | c :: rest =>
    match bracketTsAt (c :: rest) with
    | some g => some g
    | none => bracketTsSearch rest

/-- `BaseParser.parseTimestamp` (src/parsers/base-parser.js, lines
35-57).  A falsy (empty) input returns the current time; a string
containing `T` is handed to `new Date` directly; a bracketed
`YYYY-MM-DD HH:MM:SS[.mmm]` fragment is recombined into a canonical
UTC string; anything else is handed to `new Date` as-is.  An invalid
date makes `toISOString` throw, the catch block returns the current
time — so every path produces a time string, never the `unknown`
sentinel. -/
def parseTimestamp (env : DateEnv) (timeStr : String) : String :=
  if timeStr = "" then isoOfMillis env.nowMillis
  else if timeStr.toList.contains 'T' then
    match jsNewDate env timeStr with
    | some t => isoOfMillis t
    | none => isoOfMillis env.nowMillis
  else
    match bracketTsSearch timeStr.toList with
    | some (y, mo, d, h, mi, se, ms) =>
      let built := y ++ "-" ++ mo ++ "-" ++ d ++ "T" ++ h ++ ":" ++ mi ++ ":" ++ se ++
        "." ++ ms.getD "000" ++ "Z"
      match jsNewDate env built with
      | some t => isoOfMillis t
      | none => isoOfMillis env.nowMillis
    | none =>
      match jsNewDate env timeStr with
      | some t => isoOfMillis t
      | none => isoOfMillis env.nowMillis

/-- `BaseParser.createStandardLog`: assemble the normalized record; the
timestamp is renormalized through `parseTimestamp`, the level through
`normalizeLevel` (declared below in source order), optional members are
omitted when absent/empty, and `parseTime` reads the clock.  The level
normalization is inlined here as in the source (`this.normalizeLevel`). -/
def createStandardLogWith (normLevel : String → String) (env : DateEnv) (source : String)
    (timestamp level module message : String) (error : Option ErrVal) {μ : Type}
    (metadata : Option μ) (rawLine : String) : StandardLog μ :=
  { timestamp := parseTimestamp env timestamp
    level := normLevel level
    source := source
    module := module
    message := message
    error := error
    metadata := metadata
    rawLine := if rawLine = "" then none else some rawLine
    parseTime := isoOfMillis env.nowMillis }

end BaseParser

/-- Split a character list at a separator character (JS
`String.prototype.split` with a one-character string). -/
def splitOnChar (sep : Char) : List Char → List (List Char)
  | [] => [[]]
  | c :: rest =>
    let r := splitOnChar sep rest
    if c = sep then [] :: r
    else
      match r with
      | [] => [[c]]
      | h :: t => (c :: h) :: t

/-- Lazy `(.+?)` splitter: feed the continuation ever longer nonempty
prefixes of `.`-characters until it succeeds (shortest-first, as a JS
engine explores a lazy quantifier). -/
def lazySplitGo {α : Type} (k : List Char → List Char → Option α) (acc : List Char) :
    List Char → Option α
  | [] => none
  | c :: rest =>
    if isDotJS c then
      match k (acc ++ [c]) rest with
      | some r => some r
      | none => lazySplitGo k (acc ++ [c]) rest
    else none

namespace RendererParser

/-- The tail `(.+?):(\d+):(\d+)\)$` of the first stack-frame pattern:
lazy file name, then line, column, closing parenthesis, end of input. -/
def frameFileLineCol (cs : List Char) : Option (String × Nat × Nat) :=
  lazySplitGo (fun file rest => do
    let rest ← expectCh ':' rest
    let (ln, rest) := rest.span isDigitJS
    if ln.isEmpty then none else
    let rest ← expectCh ':' rest
    let (col, rest) := rest.span isDigitJS
    if col.isEmpty then none else
    let rest ← expectCh ')' rest
    if rest.isEmpty then some (⟨file⟩, digitsToNat ln, digitsToNat col) else none) [] cs
where
  /-- Decimal value of a digit list (`parseInt`). -/
  digitsToNat (l : List Char) : Nat := l.foldl (fun a c => 10 * a + digVal c) 0

/-- The tail `(.+?):(\d+)\)$` of the third stack-frame pattern. -/
def frameFileLine (cs : List Char) : Option (String × Nat) :=
  lazySplitGo (fun file rest => do
    let rest ← expectCh ':' rest
    let (ln, rest) := rest.span isDigitJS
    if ln.isEmpty then none else
    let rest ← expectCh ')' rest
    if rest.isEmpty then some (⟨file⟩, frameFileLineCol.digitsToNat ln) else none) [] cs

/-- `(.+?)\s+\(` followed by a tail parser: lazy function name, then
whitespace and the opening parenthesis. -/
def funcThen {α : Type} (tail : List Char → Option α) (cs : List Char) :
    Option (String × α) :=
  lazySplitGo (fun func rest =>
    match takeSpaces1 rest with
    | none => none
    | some r1 =>
      match expectCh '(' r1 with
      | none => none
      | some r2 => (tail r2).map (fun a => (⟨func⟩, a))) [] cs

/-- Parse one trimmed stack line against the three frame patterns of
`parseStackTrace`:
`/^at\s+(async\s+)?(.+?)\s+\((.+?):(\d+):(\d+)\)$/` (whose optional
`async` group also covers the second, async-less pattern, making that
one unreachable), then `/^at\s+(.+?)\s+\((.+?):(\d+)\)$/`. -/
def parseFrameLine (trimmed : List Char) : Option StackFrame :=
  match trimmed with
  | 'a' :: 't' :: c :: rest =>
    if isSpaceJS c then
      let body := rest.dropWhile isSpaceJS
      let withAsync : Option StackFrame :=
        match body with
        | 'a' :: 's' :: 'y' :: 'n' :: 'c' :: c2 :: r2 =>
          if isSpaceJS c2 then
            (funcThen frameFileLineCol (r2.dropWhile isSpaceJS)).map fun p =>
              { function := jsTrim p.1, file := p.2.1, line := p.2.2.1,
                column := some p.2.2.2, async := some true }
          else none
        | _ => none
      match withAsync with
      | some f => some f
      | none =>
        match funcThen frameFileLineCol body with
        | some p =>
          some { function := jsTrim p.1, file := p.2.1, line := p.2.2.1,
                 column := some p.2.2.2, async := some false }
        | none =>
          (funcThen frameFileLine body).map fun p =>
            { function := jsTrim p.1, file := p.2.1, line := p.2.2 }
    else none
  | _ => none

/-- `RendererParser.parseStackTrace` on a string argument (the form the
stream coordinator invokes): split on newlines, trim each line, keep
the lines matching a frame pattern. -/
def parseStackTrace (stackStr : String) : List StackFrame :=
  if stackStr = "" then []
  else
    (splitOnChar '\n' stackStr.toList).foldl
      (fun frames line =>
        match parseFrameLine (jsTrim ⟨line⟩).toList with
        | some f => frames ++ [f]
        | none => frames) []

end RendererParser

/-- Greedy `\s+` with backtracking into the continuation (needed where
the following sub-pattern can itself absorb whitespace). -/
def spacesThen {α : Type} (k : List Char → Option α) : List Char → Option α
  | [] => none
  | c :: rest =>
    if isSpaceJS c then
      match spacesThen k rest with
      | some r => some r
      | none => k rest
    else none

/-- Lazy `(.*?)`: like `lazySplitGo` but the empty prefix is tried
first. -/
def lazyStar0 {α : Type} (k : List Char → List Char → Option α) (cs : List Char) :
    Option α :=
  match k [] cs with
  | some r => some r
  | none => lazySplitGo k [] cs

/-- Ordered key/value maps model JS object literals: string keys in
insertion order, assignment updating in place. -/
def kvSet (l : List (String × String)) (k v : String) : List (String × String) :=
  if (l.find? (fun p => p.1 = k)).isSome then
    l.map (fun p => if p.1 = k then (k, v) else p)
  else l ++ [(k, v)]

/-- Key lookup. -/
def kvGet (l : List (String × String)) (k : String) : Option String :=
  (l.find? (fun p => p.1 = k)).map (fun p => p.2)

/-- `delete obj[k]`. -/
def kvDel (l : List (String × String)) (k : String) : List (String × String) :=
  l.filter (fun p => p.1 ≠ k)

/-- Remove the first occurrence of the literal substring `pat` (JS
`String.prototype.replace` with a string pattern and empty
replacement). -/
def removeFirstSub (pat : List Char) : List Char → List Char
  | [] => []
  | c :: rest =>
    if pat.isPrefixOf (c :: rest) ∧ pat ≠ [] then (c :: rest).drop pat.length
    else c :: removeFirstSub pat rest

namespace RendererParser

/-- `/^\s+at\s+(async\s+)?/.test(line)`: a stack-continuation line.  The
optional group cannot affect whether the test succeeds. -/
def stackLineTest (line : String) : Bool :=
  match line.toList.span isSpaceJS with
  | (sp, 'a' :: 't' :: c :: _) => sp.length ≥ 1 && isSpaceJS c
  | _ => false

/-- The named groups of `this.linePattern`
`/^\[(?<timestamp>[\d\-\s:]+)\]\s+\[(?<level>\w+)\]\s+\[(?<module>.*?)\]\s+(?<message>.*?)\s+\|\s+(?<params>.*)$/`.
All quantifier/backtracking interplay of the JS engine is reproduced:
the two lazy groups grow shortest-first, the `\s+` before the message
backtracks (the message may absorb whitespace), the others are followed
by characters disjoint from their class. -/
def rendLineParse (cs0 : List Char) :
    Option (String × String × String × String × String) := do
  let cs ← expectCh '[' cs0
  let (ts, cs) := cs.span (fun c => isDigitJS c || c = '-' || isSpaceJS c || c = ':')
  if ts.isEmpty then none else
  let cs ← expectCh ']' cs
  let cs ← takeSpaces1 cs
  let cs ← expectCh '[' cs
  let (lvl, cs) := cs.span isWordJS
  if lvl.isEmpty then none else
  let cs ← expectCh ']' cs
  let cs ← takeSpaces1 cs
  let cs ← expectCh '[' cs
  lazyStar0 (fun module rest => do
    let rest ← expectCh ']' rest
    spacesThen (fun r1 =>
      lazyStar0 (fun msg r2 =>
        match r2.span isSpaceJS with
        | (sp1, '|' :: r3) =>
          if sp1.length ≥ 1 then
            match r3.span isSpaceJS with
            | (sp2, params) =>
              if sp2.length ≥ 1 ∧ params.all isDotJS then
                some (⟨ts⟩, ⟨lvl⟩, ⟨module⟩, (⟨msg⟩ : String), (⟨params⟩ : String))
              else none
          else none
        | _ => none) r1) rest) cs

/-- The zero-width lookahead `(?=,\s*\w+=|$)` of the stack-parameter
regex. -/
def stackLookahead (rest : List Char) : Bool :=
  match rest with
  | [] => true
  | ',' :: r =>
    match (r.dropWhile isSpaceJS).span isWordJS with
    | (w, '=' :: _) => w.length ≥ 1
    | _ => false
  | _ => false

/-- Leftmost match of `/stack=(.+?)(?=,\s*\w+=|$)/`: the captured value
and the whole matched substring. -/
def stackKvSearch : List Char → Option (String × List Char)
  | [] => none
  | c :: rest =>
    match c :: rest with
    | 's' :: 't' :: 'a' :: 'c' :: 'k' :: '=' :: r =>
      match lazySplitGo (fun v r2 => if stackLookahead r2 then some v else none) [] r with
      | some v => some (⟨v⟩, 's' :: 't' :: 'a' :: 'c' :: 'k' :: '=' :: v)
      | none => stackKvSearch rest
    | _ => stackKvSearch rest

/-- `RendererParser.extractMetadata`: pull a `stack=` parameter out
first (its value may contain commas), then split the remainder on
commas into `key=value` pairs. -/
def extractMetadata (paramsStr : String) : List (String × String) :=
  if paramsStr = "" then []
  else
    let (seed, rest) :=
      match stackKvSearch paramsStr.toList with
      | some (v, matched) =>
        ([("stack", jsTrim v)], removeFirstSub matched paramsStr.toList)
      | none => ([], paramsStr.toList)
    (splitOnChar ',' rest).foldl
      (fun md item =>
        let trimmed := (jsTrim ⟨item⟩).toList
        if trimmed.isEmpty then md
        else
          match trimmed.span (fun c => c ≠ '=') with
          | (key, '=' :: value) => kvSet md (jsTrim ⟨key⟩) (jsTrim ⟨value⟩)
          | _ => md) seed

/-- `RendererParser.extractError`: an error object exists when the
parameters carried `errMsg` or `stack`. -/
def extractError (metadata : List (String × String)) : Option ErrVal :=
  if (kvGet metadata "errMsg").isNone ∧ (kvGet metadata "stack").isNone then none
  else some
    { name := some ((kvGet metadata "name").getD "Error")
      message := some ((kvGet metadata "errMsg").getD "")
      stack := some (.str ((kvGet metadata "stack").getD "")) }

/-- `RendererParser.cleanMetadata`. -/
def cleanMetadata (metadata : List (String × String)) : List (String × String) :=
  kvDel (kvDel (kvDel metadata "name") "errMsg") "stack"

/-- A Renderer record: metadata is a key/value map. -/
abbrev RendLog := StandardLog (List (String × String))

/-- `RendererParser.parseLine` (context-free form: the stream
coordinator only hands it non-continuation lines, or a context without
accumulated stack).  A stack-continuation line yields `null`; an
unmatched line still yields a permissive INFO record whose timestamp is
the current time; a matched line is decomposed into the five groups. -/
def parseLine (env : DateEnv) (source line : String) : Option RendLog :=
  if stackLineTest line then none
  else
    match rendLineParse line.toList with
    | none =>
      some (BaseParser.createStandardLogWith BaseParser.normalizeLevel env source
        (isoOfMillis env.nowMillis) "INFO" "" line none none line)
    | some (ts, lvl, module, message, params) =>
      let metadata := extractMetadata params
      let error := extractError metadata
      let cleaned := cleanMetadata metadata
      some (BaseParser.createStandardLogWith BaseParser.normalizeLevel env source
        ts lvl module message error
        (if cleaned.isEmpty then none else some cleaned) line)

end RendererParser

/-- Substring scan for `jsIncludes`. -/
def inclGo (sub : List Char) : List Char → Bool
  | [] => sub.isEmpty
  | c :: rest => sub.isPrefixOf (c :: rest) || inclGo sub rest

/-- JS substring containment (`String.prototype.includes`). -/
def jsIncludes (s sub : String) : Bool := inclGo sub.toList s.toList

/-- JS `String.prototype.split` on a regex `[class]+`: segments between
maximal separator runs, with empty segments at the ends when the string
starts or ends with a separator. -/
def splitOnRuns (p : Char → Bool) : List Char → List (List Char)
  | [] => [[]]
  | c :: rest =>
    if p c then
      [] :: splitOnRuns p (rest.dropWhile p)
    else
      match splitOnRuns p rest with
      | [] => [[c]]
      | h :: t => (c :: h) :: t
termination_by l => l.length
decreasing_by
  · have h := (List.dropWhile_suffix (l := rest) p).sublist.length_le
    simp only [List.length_cons]
    omega
  · simp only [List.length_cons]
    omega

namespace MountAppParser

/-- The seven Chinese weekday tokens `周一 … 周日`. -/
def weekdaySecond : List Char := ['一', '二', '三', '四', '五', '六', '日']

/-- Anchored match of `this.chineseDatePattern`
`/^(周一|周二|周三|周四|周五|周六|周日)\s+(\d{4})\/(\d{2})\s+(\d{2}):(\d{2}):(\d{2})(?:\.(\d{2}))?/`:
the five timestamp groups, the optional centiseconds group, and the
total matched length (`match[0].length`). -/
def chineseMatch (cs : List Char) :
    Option (String × String × String × String × String × Option String × Nat) :=
  let total := cs.length
  match cs with
  | '周' :: w :: cs0 =>
    if weekdaySecond.contains w then
      match takeSpaces1 cs0 with
      | none => none
      | some cs1 =>
      match takeDigits 4 cs1 with
      | none => none
      | some (y, cs2) =>
      match expectCh '/' cs2 with
      | none => none
      | some cs3 =>
      match takeDigits 2 cs3 with
      | none => none
      | some (mo, cs4) =>
      match takeSpaces1 cs4 with
      | none => none
      | some cs5 =>
      match takeDigits 2 cs5 with
      | none => none
      | some (h, cs6) =>
      match expectCh ':' cs6 with
      | none => none
      | some cs7 =>
      match takeDigits 2 cs7 with
      | none => none
      | some (mi, cs8) =>
      match expectCh ':' cs8 with
      | none => none
      | some cs9 =>
      match takeDigits 2 cs9 with
      | none => none
      | some (se, cs10) =>
      let tail : Option String × List Char :=
        match cs10 with
        | '.' :: r =>
          (match takeDigits 2 r with
           | some (f, r2) => (some ⟨f⟩, r2)
           | none => (none, '.' :: r))
        | _ => (none, cs10)
      some (⟨y⟩, ⟨mo⟩, ⟨h⟩, ⟨mi⟩, ⟨se⟩, tail.1, total - tail.2.length)
    else none
  | _ => none

/-- JS `String.prototype.padEnd(3, '0')`. -/
def padEnd3 (s : String) : String :=
  s ++ ⟨List.replicate (3 - s.toList.length) '0'⟩

/-- `MountAppParser.convertChineseTime` (src/parsers/mount-app-parser.js,
lines 78-91): the rebuilt date string hard-codes `01` as the
day-of-month (the source format has no day field); an unparsable
rebuild falls back to the current time via the catch block. -/
def convertChineseTime (env : DateEnv) (year month hour minute second : String)
    (cs : Option String) : String :=
  let fullDate := year ++ "-" ++ month ++ "-01T" ++ hour ++ ":" ++ minute ++ ":" ++
    second ++ "." ++ padEnd3 (cs.getD "00") ++ "Z"
  match jsNewDate env fullDate with
  | some t => isoOfMillis t
  | none => isoOfMillis env.nowMillis

/-- `MountAppParser.detectLevel`: keyword heuristics on the
upper-cased message. -/
def detectLevel (message : String) : String :=
  if message = "" then "INFO"
  else
    let u := jsToUpperCase message
    if jsIncludes u "ERROR" || jsIncludes u "ERR" then "ERROR"
    else if jsIncludes u "WARN" || jsIncludes u "WARNING" then "WARN"
    else if jsIncludes u "FATAL" || jsIncludes u "CRITICAL" then "ERROR"
    else if jsIncludes u "DEBUG" then "DEBUG"
    else "INFO"

/-- Leftmost match of `/\(([^)]+)\)/`: the first parenthesized group. -/
def parenSearch : List Char → Option String
  | [] => none
  | '(' :: rest =>
    (match rest.span (fun c => c ≠ ')') with
     | (inner, ')' :: _) => if inner.isEmpty then parenSearch rest else some ⟨inner⟩
     | _ => parenSearch rest)
  | _ :: rest => parenSearch rest

/-- `MountAppParser.extractModule`. -/
def extractModule (message : String) : String :=
  match parenSearch message.toList with
  | some inner => inner
  | none =>
    match splitOnRuns (fun c => isSpaceJS c || c = '=') message.toList with
    | [] => "unknown"
    | w :: _ => if w.isEmpty then "unknown" else ⟨w⟩

/-- One scan step of the global pattern `/[A-Z]:\\[^\s]*/g` with the
trailing `path.replace(/[,;:\s]$/, '')` cleanup and de-duplication. -/
def windowsPathsGo : List Char → List String → List String
  | [], acc => acc
  | c :: ':' :: '\\' :: r, acc =>
    if 'A' ≤ c ∧ c ≤ 'Z' then
      let body := r.takeWhile (fun x => !isSpaceJS x)
      let raw : List Char := c :: ':' :: '\\' :: body
      let path : List Char :=
        match raw.getLast? with
        | some l => if l = ',' || l = ';' || l = ':' || isSpaceJS l then raw.dropLast else raw
        | none => raw
      let acc2 := if path ≠ [] ∧ ¬ acc.contains (⟨path⟩ : String) then acc ++ [⟨path⟩] else acc
      windowsPathsGo (r.dropWhile (fun x => !isSpaceJS x)) acc2
    else windowsPathsGo (':' :: '\\' :: r) acc
  | _ :: rest, acc => windowsPathsGo rest acc
termination_by l _ => l.length
decreasing_by
  · have h := (List.dropWhile_suffix (l := r) (fun x => !isSpaceJS x)).sublist.length_le
    simp only [List.length_cons]
    omega
  · simp only [List.length_cons]
    omega
  · simp only [List.length_cons]
    omega

/-- `MountAppParser.extractWindowsPaths`. -/
def extractWindowsPaths (line : String) : List String :=
  windowsPathsGo line.toList []

/-- A MountApp record: metadata is the extracted Windows path list. -/
abbrev MountLog := StandardLog (List String)

/-- `MountAppParser.parseLine` (src/parsers/mount-app-parser.js, lines
38-73).  A blank line yields `null`.  The timestamp comes from
`convertChineseTime` on the matched groups, or from the current time
when the Chinese date pattern does not match at the start of the line. -/
def parseLine (env : DateEnv) (source line : String) : Option MountLog :=
  if jsTrim line = "" then none
  else
    let matched := chineseMatch line.toList
    let timestamp :=
      match matched with
      | some (y, mo, h, mi, se, cc, _) => convertChineseTime env y mo h mi se cc
      | none => isoOfMillis env.nowMillis
    let messageStart := match matched with
      | some g => g.2.2.2.2.2.2
      | none => 0
    let message := jsTrim ⟨line.toList.drop messageStart⟩
    let level := detectLevel message
    let module := extractModule message
    let windowsPaths := extractWindowsPaths line
    some (BaseParser.createStandardLogWith BaseParser.normalizeLevel env source
      timestamp level module (if message = "" then line else message) none
      (if windowsPaths.isEmpty then none else some windowsPaths) line)

end MountAppParser

/-! ## `FormatDetector` (src/parsers/format-detector.js)

The five scorers walk 10–30 sample lines with regex and JSON-shape
tests and produce an integer match count; `detect` turns each count
into a confidence and aggregates.  The scorers are abstracted at their
match-count interface (`ScorerCounts` is the vector of counts the five
scorers computed on a given sample); `detect` itself — the scoring
formula, the `score > 0` filters, the stable descending sort, the
head/UNKNOWN split — is embedded from the source. -/

namespace FormatDetector

/-- The `FORMATS` enumeration. -/
inductive Format where
  | renderer
  | http
  | syncApp
  | performance
  | mountApp
  | unknown
deriving DecidableEq

/-- The match counts returned by the five scorers on one sample. -/
structure ScorerCounts where
  renderer : Nat
  http : Nat
  syncApp : Nat
  performance : Nat
  mountApp : Nat
deriving DecidableEq

/-- The count of the scorer for a format (a format without a scorer
counts zero). -/
def countOf (c : ScorerCounts) : Format → Nat
  | .renderer => c.renderer
  | .http => c.http
  | .syncApp => c.syncApp
  | .performance => c.performance
  | .mountApp => c.mountApp
  | .unknown => 0

/-- `Math.min(matches / 5, 1.0)` (written as the defining conditional
of `min` so that it evaluates by kernel reduction). -/
def scoreOf (m : Nat) : ℚ := if (m : ℚ) / 5 ≤ 1 then (m : ℚ) / 5 else 1

/-- What `detect` returns (the `reasons` strings are not modelled). -/
structure DetectionResult where
  format : Format
  confidence : ℚ
deriving DecidableEq

/-- One element of the `results` array. -/
structure Entry where
  format : Format
  score : ℚ
deriving DecidableEq

/-- `results.sort((a, b) => b.score - a.score)`: a JS sort with a
consistent comparator is exactly the stable sort by that comparator
(stability is guaranteed since ES2019), here modelled by Mathlib's
stable insertion sort under the "may precede" relation of the
comparator. -/
def entryGE (a b : Entry) : Prop := b.score ≤ a.score

instance : DecidableRel entryGE := fun _ _ => inferInstanceAs (Decidable (_ ≤ _))

/-- The `results` array of `detect`: the positive-score scorer results,
pushed in scorer evaluation order. -/
def results (c : ScorerCounts) : List Entry :=
  (if scoreOf c.renderer > 0 then [⟨.renderer, scoreOf c.renderer⟩] else []) ++
  (if scoreOf c.http > 0 then [⟨.http, scoreOf c.http⟩] else []) ++
  (if scoreOf c.syncApp > 0 then [⟨.syncApp, scoreOf c.syncApp⟩] else []) ++
  (if scoreOf c.performance > 0 then [⟨.performance, scoreOf c.performance⟩] else []) ++
  (if scoreOf c.mountApp > 0 then [⟨.mountApp, scoreOf c.mountApp⟩] else [])

/-- `FormatDetector.detect` (src/parsers/format-detector.js, lines
21-57): collect the positive-score results in scorer evaluation order,
sort descending by score (stable), return the head, or UNKNOWN with
confidence 0 when no scorer scored. -/
def detect (c : ScorerCounts) : DetectionResult :=
  match List.insertionSort entryGE (results c) with
  | best :: _ => ⟨best.format, best.score⟩
  | [] => ⟨.unknown, 0⟩

/-- Scorer evaluation order: Renderer > HTTP > SyncApp > Performance >
MountApp. -/
def evalOrder : List Format := [.renderer, .http, .syncApp, .performance, .mountApp]

/-- Position of a format in the evaluation order (UNKNOWN after all). -/
def idx : Format → Nat
  | .renderer => 0
  | .http => 1
  | .syncApp => 2
  | .performance => 3
  | .mountApp => 4
  | .unknown => 5

end FormatDetector

/-! ## `LogParserManager.streamParse` (src/parsers/log-parser-manager.js) -/

namespace LogParserManager

/-- The summary object `streamParse` resolves with (the `filepath` and
`format` members are constants of the run and not modelled). -/
structure StreamResult (α : Type) where
  totalLines : Nat
  successfulLogs : Nat
  failedLines : Nat
  logs : List α
deriving DecidableEq

/-- One line of the non-Renderer branch of the `line` handler (lines
143-164): a parser is its `parseLine` function, abstracted as a total
function into `Except` — a thrown exception is `.error`, a `null`
return is `.ok none`.  A success or a `null` return is counted and
`totalLines` is incremented; a throw increments `failedLines`, records
the error callback arguments `(error, lineNumber, rawLine)`, and skips
the `totalLines` increment (it sits after the parse in the `try`
block). -/
def processLine {α : Type} (parse : String → Except String (Option α))
    (r : StreamResult α) (errs : List (String × Nat × String)) (lineNumber : Nat)
    (line : String) : StreamResult α × List (String × Nat × String) :=
  match parse line with
  | .ok (some log) =>
    ({ r with
        successfulLogs := r.successfulLogs + 1
        logs := r.logs ++ [log]
        totalLines := r.totalLines + 1 }, errs)
  | .ok none =>
    ({ r with failedLines := r.failedLines + 1, totalLines := r.totalLines + 1 }, errs)
  | .error e =>
    ({ r with failedLines := r.failedLines + 1 }, errs ++ [(e, lineNumber, line)])

/-- Drive the non-Renderer stream: one `processLine` per line, line
numbers starting at 1. -/
def streamGo {α : Type} (parse : String → Except String (Option α)) :
    List String → Nat → StreamResult α → List (String × Nat × String) →
      StreamResult α × List (String × Nat × String)
  | [], _, r, errs => (r, errs)
  | line :: rest, n, r, errs =>
    let st := processLine parse r errs (n + 1) line
    streamGo parse rest (n + 1) st.1 st.2

/-- `streamParse` for a non-Renderer format (no `maxLines` budget, i.e.
the default `Infinity`): the final summary and the collected error
callback invocations. -/
def streamParseSimple {α : Type} (parse : String → Except String (Option α))
    (lines : List String) : StreamResult α × List (String × Nat × String) :=
  streamGo parse lines 0 ⟨0, 0, 0, []⟩ []

/-- The mutable per-stream context `{ stackLines: [], previousLog: null }`. -/
structure RendererContext where
  stackLines : List String
  previousLog : Option String
deriving DecidableEq

/-- Join with newlines (`array.join('\n')`). -/
def joinNL (l : List String) : String :=
  ⟨((l.map String.toList).intersperse ['\n']).flatten⟩

/-- `log.error = log.error || {}; log.error.stack = parser.parseStackTrace(...)`. -/
def attachStack (log : RendererParser.RendLog) (stackLines : List String) :
    RendererParser.RendLog :=
  let frames := StackVal.frames (RendererParser.parseStackTrace (joinNL stackLines))
  match log.error with
  | some e => { log with error := some { e with stack := some frames } }
  | none => { log with error := some { stack := some frames } }

/-- `LogParserManager.parseRendererLine` (lines 190-218): accumulate
stack-continuation lines; on a primary line, finalize the buffered
`previousLog` (attaching any accumulated stack) and buffer the new line
if it is non-blank. -/
def parseRendererLine (env : DateEnv) (source line : String) (ctx : RendererContext)
    (r : StreamResult RendererParser.RendLog) :
    RendererContext × StreamResult RendererParser.RendLog :=
  if RendererParser.stackLineTest line then
    ({ ctx with stackLines := ctx.stackLines ++ [jsTrim line] }, r)
  else
    let step :=
      match ctx.previousLog with
      | some prev =>
        (match RendererParser.parseLine env source prev with
         | some log =>
           let log2 := if ctx.stackLines.length > 0 then attachStack log ctx.stackLines else log
           ({ ctx with stackLines := [] },
            { r with successfulLogs := r.successfulLogs + 1, logs := r.logs ++ [log2] })
         | none =>
           ({ ctx with stackLines := [] }, { r with failedLines := r.failedLines + 1 }))
      | none => (ctx, r)
    if jsTrim line ≠ "" then ({ step.1 with previousLog := some line }, step.2)
    else step

/-- Drive the Renderer stream: `parseRendererLine` then the
`totalLines` increment of the `line` handler. -/
def streamRendererGo (env : DateEnv) (source : String) :
    List String → RendererContext → StreamResult RendererParser.RendLog →
      RendererContext × StreamResult RendererParser.RendLog
  | [], ctx, r => (ctx, r)
  | line :: rest, ctx, r =>
    let st := parseRendererLine env source line ctx r
    streamRendererGo env source rest st.1 { st.2 with totalLines := st.2.totalLines + 1 }

/-- The `close` handler (lines 166-181): the buffered `previousLog` is
finalized only when stack lines were accumulated, and the reassembled
stack is attached only when the parsed record already carries an error
object. -/
def rendererClose (env : DateEnv) (source : String) (ctx : RendererContext)
    (r : StreamResult RendererParser.RendLog) : StreamResult RendererParser.RendLog :=
  match ctx.previousLog with
  | some prev =>
    if ctx.stackLines.length > 0 then
      match RendererParser.parseLine env source prev with
      | some prevLog =>
        let prevLog2 :=
          match prevLog.error with
          | some e =>
            { prevLog with error := some { e with stack := some (StackVal.frames
                (RendererParser.parseStackTrace (joinNL ctx.stackLines))) } }
          | none => prevLog
        { r with logs := r.logs ++ [prevLog2], successfulLogs := r.successfulLogs + 1 }
      | none => r
    else r
  | none => r

/-- `streamParse` for the Renderer format: the per-line loop followed by
the `close` handler. -/
def streamParseRenderer (env : DateEnv) (source : String) (lines : List String) :
    StreamResult RendererParser.RendLog :=
  let st := streamRendererGo env source lines ⟨[], none⟩ ⟨0, 0, 0, []⟩
  rendererClose env source st.1 st.2

end LogParserManager

/-! ## `LogAnalyzer` pattern ordering and clustering (src/README.md embedded module) -/

namespace LogAnalyzer

/-- The four severities of a `DetectionPattern`. -/
inductive Severity where
  | CRITICAL
  | HIGH
  | MEDIUM
  | LOW
deriving DecidableEq

/-- The `severityOrder` rank map of `detectPatterns`. -/
def severityOrder : Severity → Nat
  | .CRITICAL => 0
  | .HIGH => 1
  | .MEDIUM => 2
  | .LOW => 3

/-- A detected issue, restricted to the members the final sort reads
(plus an identifier). -/
structure DetectedIssue where
  pattern_id : String
  severity : Severity
  occurrence_count : Nat
deriving DecidableEq

/-- The "may precede" relation of the `detectPatterns` sort comparator:
more severe first, then higher occurrence count first. -/
def issueLE (a b : DetectedIssue) : Prop :=
  severityOrder a.severity < severityOrder b.severity ∨
    (severityOrder a.severity = severityOrder b.severity ∧
      b.occurrence_count ≤ a.occurrence_count)

instance : DecidableRel issueLE := fun _ _ =>
  inferInstanceAs (Decidable (_ ∨ _))

instance : IsTotal DetectedIssue issueLE :=
  ⟨fun a b => by unfold issueLE; omega⟩

instance : IsTrans DetectedIssue issueLE :=
  ⟨fun a b c hab hbc => by unfold issueLE at *; omega⟩

/-- The final sort of `detectPatterns` (src/README.md, lines 316-322):
`detectedIssues.sort(severity rank, then descending count)`, a stable
JS sort modelled by the stable insertion sort under the comparator's
"may precede" relation. -/
def sortDetectedIssues (issues : List DetectedIssue) : List DetectedIssue :=
  List.insertionSort issueLE issues

/-- `/\d{4}-\d{2}-\d{2}[T\s]\d{2}:\d{2}:\d{2}(?:\.\d{3})?(?:Z|[+-]\d{2}:\d{2})?/g` -/
def maskTsPat : Matcher :=
  mseqs [mrep isDigitJS 4, mch '-', mrep isDigitJS 2, mch '-', mrep isDigitJS 2,
    mcls (fun c => c = 'T' || isSpaceJS c),
    mrep isDigitJS 2, mch ':', mrep isDigitJS 2, mch ':', mrep isDigitJS 2,
    mopt (mseqs [mch '.', mrep isDigitJS 3]),
    mopt (malt (mch 'Z') (mseqs [malt (mch '+') (mch '-'), mrep isDigitJS 2, mch ':',
      mrep isDigitJS 2]))]

/-- `/\b[0-9a-f]{8}-[0-9a-f]{4}-[0-9a-f]{4}-[0-9a-f]{4}-[0-9a-f]{12}\b/gi` -/
def maskUuidPat : Matcher :=
  mseqs [mbound, mrep isHexJS 8, mch '-', mrep isHexJS 4, mch '-', mrep isHexJS 4,
    mch '-', mrep isHexJS 4, mch '-', mrep isHexJS 12, mbound]

/-- `/\b\d+\b/g` -/
def maskNumPat : Matcher := mseqs [mbound, mplus isDigitJS, mbound]

/-- `/0x[0-9a-f]+/gi` -/
def maskHexPat : Matcher :=
  mseqs [mch '0', mcls (fun c => c = 'x' || c = 'X'), mplus isHexJS]

/-- Greedy `*` over a class. -/
def mstar (p : Char → Bool) : Matcher := fun k prev cs =>
  match mplusGo p k prev cs with
  | some r => some r
  | none => k prev cs

/-- `/\b[A-Za-z0-9._%+-]+@[A-Za-z0-9.-]+\.[A-Z|a-z]{2,}\b/g` (the last
class literally contains `|`). -/
def maskEmailPat : Matcher :=
  mseqs [mbound,
    mplus (fun c => c.isAlphanum || c = '.' || c = '_' || c = '%' || c = '+' || c = '-'),
    mch '@',
    mplus (fun c => c.isAlphanum || c = '.' || c = '-'),
    mch '.',
    mrep (fun c => c.isAlpha || c = '|') 2,
    mstar (fun c => c.isAlpha || c = '|'),
    mbound]

/-- `/\b(?:\d{1,3}\.){3}\d{1,3}\b/g` -/
def maskIpPat : Matcher :=
  mseqs [mbound, mrange isDigitJS 1 3, mch '.', mrange isDigitJS 1 3, mch '.',
    mrange isDigitJS 1 3, mch '.', mrange isDigitJS 1 3, mbound]

/-- The masking transform of `clusterSimilarLines` (src/README.md,
lines 474-480): the six global replacements, applied in source order —
numbers are masked *before* the IPv4 pass runs. -/
def maskLine (message : String) : String :=
  jsReplaceAll maskIpPat "<IP>"
    (jsReplaceAll maskEmailPat "<EMAIL>"
      (jsReplaceAll maskHexPat "<HEX>"
        (jsReplaceAll maskNumPat "<NUM>"
          (jsReplaceAll maskUuidPat "<UUID>"
            (jsReplaceAll maskTsPat "<TIMESTAMP>" message)))))

/-- A parsed line, restricted to the members `clusterSimilarLines`
reads. -/
structure ParsedLine where
  lineNumber : Nat
  message : String
deriving DecidableEq

/-- A cluster entry. -/
structure Cluster where
  pattern : String
  sample : String
  count : Nat
  lineNumbers : List Nat
deriving DecidableEq

/-- One loop iteration of `clusterSimilarLines`: group by masked form
in a `Map` (insertion-ordered), creating an entry with the line's
message as sample, then incrementing the count and pushing the line
number. -/
def addToClusters (clusters : List Cluster) (line : ParsedLine) : List Cluster :=
  let normalized := maskLine line.message
  if (clusters.find? (fun c => c.pattern = normalized)).isSome then
    clusters.map (fun c =>
      if c.pattern = normalized then
        { c with count := c.count + 1, lineNumbers := c.lineNumbers ++ [line.lineNumber] }
      else c)
  else
    clusters ++ [{ pattern := normalized
                   sample := line.message
                   count := 1
                   lineNumbers := [line.lineNumber] }]

/-- The "may precede" relation of `(a, b) => b.count - a.count`. -/
def clusterGE (a b : Cluster) : Prop := b.count ≤ a.count

instance : DecidableRel clusterGE := fun _ _ => inferInstanceAs (Decidable (_ ≤ _))

instance : IsTotal Cluster clusterGE := ⟨fun a b => Nat.le_total b.count a.count⟩

instance : IsTrans Cluster clusterGE :=
  ⟨fun _ _ _ hab hbc => Nat.le_trans hbc hab⟩

/-- `LogAnalyzer.clusterSimilarLines` (src/README.md, lines 469-503):
group by masked form, keep groups at or above the frequency threshold
(default 5), sort descending by count (stable), keep the top 20. -/
def clusterSimilarLines (parsedLines : List ParsedLine) (threshold : Nat := 5) :
    List Cluster :=
  let clusters := parsedLines.foldl addToClusters []
  (List.insertionSort clusterGE (clusters.filter (fun c => threshold ≤ c.count))).take 20

end LogAnalyzer

/-- Discriminator: the parse produced a record. -/
def isOkSome {ε α : Type} : Except ε (Option α) → Bool
  | .ok (some _) => true
  | _ => false

/-- Discriminator: the parse returned `null`. -/
def isOkNone {ε α : Type} : Except ε (Option α) → Bool
  | .ok none => true
  | _ => false

/-- The earliest entry with the maximal score (later entries must beat
it strictly to displace it) — the reference reading of "stable sort
descending, take the head". -/
def firstMax : List FormatDetector.Entry → Option FormatDetector.Entry
  | [] => none
  | x :: xs =>
    match firstMax xs with
    | none => some x
    | some b => if x.score < b.score then some b else some x

/-! ### Definitions end here; the development of the claims follows. -/

/-! ## Theorems -/

example : isoOfMillis 0 = "1970-01-01T00:00:00.000Z" := by decide

example : isoZParse "2025-06-01T11:55:50.670Z" = some 1748778950670 := by decide

example : isoOfMillis 1748778950670 = "2025-06-01T11:55:50.670Z" := by decide

example : LogNormalizer.extractTimestamp utcEnv "x 2025-06-01T11:55:50.670Z y" =
    "2025-06-01T11:55:50.670Z" := by decide

example : LogNormalizer.extractTimestamp utcEnv "port: 54631" = "unknown" := by decide

example : LogNormalizer.extractTimestamp utcEnv "[2025-06-26 20:49:04] boot" = "unknown" := by
  decide

/-! ### The Gregorian calendar embedding round-trips at day `01`

The MountApp parser rebuilds `${year}-${month}-01T…Z` and hands it to
`new Date`; proving that the stamped day really is the constant `01`
for *every* matching line needs the calendar arithmetic to round-trip:
`civilFromDays (daysFromCivil y mo 1) = (y, mo, 1)`, and then
`toISOString` to re-render exactly the canonical string that
`parseTimestamp` re-parses to the same time value. -/

theorem dfc_spec (y : Int) (m d : Nat) (y2 era : Int) (yoe mp : Nat)
    (h1 : y2 = if m ≤ 2 then y - 1 else y)
    (h2 : era = Int.fdiv y2 400)
    (h3 : yoe = Int.toNat (y2 - era * 400))
    (h4 : mp = if 2 < m then m - 3 else m + 9) :
    daysFromCivil y m d =
      era * 146097 +
        ((yoe * 365 + yoe / 4 - yoe / 100 + ((153 * mp + 2) / 5 + d - 1) : Nat) : Int) -
        719468 := by
  subst h1 h2 h3 h4; rfl

theorem cf_spec (z0 z era : Int) (doe yoe doy mp d m : Nat)
    (h1 : z = z0 + 719468)
    (h2 : era = Int.fdiv z 146097)
    (h3 : doe = Int.toNat (Int.fmod z 146097))
    (h4 : yoe = (doe - doe / 1460 + doe / 36524 - doe / 146096) / 365)
    (h5 : doy = doe - (365 * yoe + yoe / 4 - yoe / 100))
    (h6 : mp = (5 * doy + 2) / 153)
    (h7 : d = doy - (153 * mp + 2) / 5 + 1)
    (h8 : m = if mp < 10 then mp + 3 else mp - 9) :
    civilFromDays z0 =
      ((if m ≤ 2 then (yoe : Int) + era * 400 + 1 else (yoe : Int) + era * 400), m, d) := by
  subst h1 h2 h3 h4 h5 h6 h7 h8; rfl

set_option maxHeartbeats 4000000 in
theorem yoe_recover (yoe C doe : Nat) (h1 : yoe ≤ 399) (h2 : C ≤ 337)
    (hdoe : yoe * 365 + yoe / 4 - yoe / 100 + C = doe) :
    (doe - doe / 1460 + doe / 36524 - doe / 146096) / 365 = yoe := by
  interval_cases yoe <;> omega

theorem rt_pre_facts (mo mp C yoe doe : Nat) (y2 era : Int)
    (hmo1 : 1 ≤ mo) (hmo2 : mo ≤ 12)
    (hmpa : (2 < mo ∧ mp = mo - 3) ∨ (¬ 2 < mo ∧ mp = mo + 9))
    (hC : (153 * mp + 2) / 5 + 1 - 1 = C)
    (hdoe : yoe * 365 + yoe / 4 - yoe / 100 + C = doe)
    (hera : y2 / 400 = era)
    (hyoe : Int.toNat (y2 - era * 400) = yoe) :
    mp ≤ 11 ∧ C ≤ 337 ∧ yoe ≤ 399 ∧ doe < 146097 := by
  omega

theorem rt_era_doe (era z era2 : Int) (doe doe2 : Nat) (hdoeB : doe < 146097)
    (hz : era * 146097 + (doe : Int) - 719468 + 719468 = z)
    (hera2 : z / 146097 = era2)
    (hdoe2 : Int.toNat (z % 146097) = doe2) :
    era = era2 ∧ doe = doe2 := by
  constructor <;> omega

theorem rt_doy (yoe C doe doy2 : Nat)
    (hdoe : yoe * 365 + yoe / 4 - yoe / 100 + C = doe)
    (hdoy2 : doe - (365 * yoe + yoe / 4 - yoe / 100) = doy2) :
    C = doy2 := by
  omega

theorem rt_mp (mp C mp2 : Nat) (hmp11 : mp ≤ 11)
    (hC : (153 * mp + 2) / 5 + 1 - 1 = C)
    (hmp2 : (5 * C + 2) / 153 = mp2) :
    mp = mp2 := by
  omega

theorem rt_d (mp C d2 : Nat)
    (hC : (153 * mp + 2) / 5 + 1 - 1 = C)
    (hd2 : C - (153 * mp + 2) / 5 + 1 = d2) :
    d2 = 1 := by
  omega

theorem rt_m (mo mp m2 : Nat) (hmo1 : 1 ≤ mo) (hmo2 : mo ≤ 12)
    (hmpa : (2 < mo ∧ mp = mo - 3) ∨ (¬ 2 < mo ∧ mp = mo + 9))
    (hm2a : (mp < 10 ∧ m2 = mp + 3) ∨ (¬ mp < 10 ∧ m2 = mp - 9)) :
    m2 = mo := by
  omega

theorem rt_year (mo yoe : Nat) (y y2 era : Int)
    (hy2a : (mo ≤ 2 ∧ y2 = y - 1) ∨ (¬ mo ≤ 2 ∧ y2 = y))
    (hera : y2 / 400 = era)
    (hyoe : Int.toNat (y2 - era * 400) = yoe) :
    (if mo ≤ 2 then (yoe : Int) + era * 400 + 1 else (yoe : Int) + era * 400) = y := by
  split_ifs <;> omega

/-- The Hinnant civil-calendar pair round-trips on the first of any
month: `daysFromCivil` then `civilFromDays` restores `(y, mo, 1)`. -/
theorem civil_roundtrip_day1 (y : Int) (mo : Nat) (hy0 : 0 ≤ y) (hy : y ≤ 9999)
    (hmo1 : 1 ≤ mo) (hmo2 : mo ≤ 12) :
    civilFromDays (daysFromCivil y mo 1) = (y, mo, 1) := by
  obtain ⟨y2, hy2⟩ : ∃ v : Int, (if mo ≤ 2 then y - 1 else y) = v := ⟨_, rfl⟩
  obtain ⟨era, hera⟩ : ∃ v : Int, Int.fdiv y2 400 = v := ⟨_, rfl⟩
  obtain ⟨yoe, hyoe⟩ : ∃ v : Nat, Int.toNat (y2 - era * 400) = v := ⟨_, rfl⟩
  obtain ⟨mp, hmp⟩ : ∃ v : Nat, (if 2 < mo then mo - 3 else mo + 9) = v := ⟨_, rfl⟩
  have hy2a : (mo ≤ 2 ∧ y2 = y - 1) ∨ (¬ mo ≤ 2 ∧ y2 = y) := by
    by_cases h : mo ≤ 2
    · exact Or.inl ⟨h, by rw [← hy2, if_pos h]⟩
    · exact Or.inr ⟨h, by rw [← hy2, if_neg h]⟩
  have hmpa : (2 < mo ∧ mp = mo - 3) ∨ (¬ 2 < mo ∧ mp = mo + 9) := by
    by_cases h : 2 < mo
    · exact Or.inl ⟨h, by rw [← hmp, if_pos h]⟩
    · exact Or.inr ⟨h, by rw [← hmp, if_neg h]⟩
  rw [dfc_spec y mo 1 y2 era yoe mp hy2.symm hera.symm hyoe.symm hmp.symm]
  clear hy2 hmp
  rw [Int.fdiv_eq_ediv _ (by norm_num)] at hera
  obtain ⟨C, hC⟩ : ∃ v : Nat, (153 * mp + 2) / 5 + 1 - 1 = v := ⟨_, rfl⟩
  rw [hC]
  obtain ⟨doe, hdoe⟩ : ∃ v : Nat, yoe * 365 + yoe / 4 - yoe / 100 + C = v := ⟨_, rfl⟩
  rw [hdoe]
  obtain ⟨hmp11, hC337, hyoe399, hdoeB⟩ :=
    rt_pre_facts mo mp C yoe doe y2 era hmo1 hmo2 hmpa hC hdoe hera hyoe
  obtain ⟨z, hz⟩ : ∃ v : Int, era * 146097 + (doe : Int) - 719468 + 719468 = v := ⟨_, rfl⟩
  obtain ⟨era2, hera2⟩ : ∃ v : Int, Int.fdiv z 146097 = v := ⟨_, rfl⟩
  obtain ⟨doe2, hdoe2⟩ : ∃ v : Nat, Int.toNat (Int.fmod z 146097) = v := ⟨_, rfl⟩
  obtain ⟨yoe2, hyoe2⟩ : ∃ v : Nat,
      (doe2 - doe2 / 1460 + doe2 / 36524 - doe2 / 146096) / 365 = v := ⟨_, rfl⟩
  obtain ⟨doy2, hdoy2⟩ : ∃ v : Nat, doe2 - (365 * yoe2 + yoe2 / 4 - yoe2 / 100) = v := ⟨_, rfl⟩
  obtain ⟨mp2, hmp2⟩ : ∃ v : Nat, (5 * doy2 + 2) / 153 = v := ⟨_, rfl⟩
  obtain ⟨d2, hd2⟩ : ∃ v : Nat, doy2 - (153 * mp2 + 2) / 5 + 1 = v := ⟨_, rfl⟩
  obtain ⟨m2, hm2⟩ : ∃ v : Nat, (if mp2 < 10 then mp2 + 3 else mp2 - 9) = v := ⟨_, rfl⟩
  have hm2a : (mp2 < 10 ∧ m2 = mp2 + 3) ∨ (¬ mp2 < 10 ∧ m2 = mp2 - 9) := by
    by_cases h : mp2 < 10
    · exact Or.inl ⟨h, by rw [← hm2, if_pos h]⟩
    · exact Or.inr ⟨h, by rw [← hm2, if_neg h]⟩
  rw [cf_spec (era * 146097 + (doe : Int) - 719468) z era2 doe2 yoe2 doy2 mp2 d2 m2
    hz.symm hera2.symm hdoe2.symm hyoe2.symm hdoy2.symm hmp2.symm hd2.symm hm2.symm]
  clear hm2
  rw [Int.fdiv_eq_ediv _ (by norm_num)] at hera2
  rw [Int.fmod_eq_emod _ (by norm_num)] at hdoe2
  obtain ⟨hee, hdd⟩ := rt_era_doe era z era2 doe doe2 hdoeB hz hera2 hdoe2
  subst hee
  subst hdd
  have hyy : yoe = yoe2 := by
    rw [← hyoe2]
    exact (yoe_recover yoe C doe hyoe399 hC337 hdoe).symm
  subst hyy
  have hdoyC : C = doy2 := rt_doy yoe C doe doy2 hdoe hdoy2
  subst hdoyC
  have hmpe : mp = mp2 := rt_mp mp C mp2 hmp11 hC hmp2
  subst hmpe
  have hde : d2 = 1 := rt_d mp C d2 hC hd2
  have hme : m2 = mo := rt_m mo mp m2 hmo1 hmo2 hmpa hm2a
  rw [hme]
  simp only [Prod.mk.injEq]
  exact ⟨rt_year mo yoe y y2 era hy2a hera hyoe, trivial, hde⟩

/-! ### Digit rendering and the canonical-string parse of a rendered time -/

theorem digitChar_isDigit {n : Nat} (h : n < 10) : isDigitJS (Nat.digitChar n) = true := by
  interval_cases n <;> decide

theorem digVal_digitChar {n : Nat} (h : n < 10) : digVal (Nat.digitChar n) = n := by
  interval_cases n <;> decide

theorem digitChar_digVal {c : Char} (h : isDigitJS c = true) : Nat.digitChar (digVal c) = c := by
  have hv : 48 ≤ c.toNat ∧ c.toNat ≤ 57 := by
    simp only [isDigitJS, Char.isDigit, Bool.and_eq_true, decide_eq_true_eq] at h
    exact ⟨h.1, h.2⟩
  rw [← Char.ofNat_toNat c]
  have hcn : c.toNat = 48 + digVal c := by simp only [digVal]; omega
  rw [hcn]
  have h10 : digVal c < 10 := by simp only [digVal]; omega
  obtain ⟨k, hk⟩ : ∃ k, digVal c = k := ⟨_, rfl⟩
  rw [hk] at h10 ⊢
  interval_cases k <;> decide

theorem mod10_lt (n : Nat) : n % 10 < 10 := Nat.mod_lt _ (by norm_num)

theorem digitChar10_isDigit (n : Nat) : isDigitJS (Nat.digitChar (n % 10)) = true :=
  digitChar_isDigit (mod10_lt n)

theorem digVal_digitChar10 (n : Nat) : digVal (Nat.digitChar (n % 10)) = n % 10 :=
  digVal_digitChar (mod10_lt n)

theorem daysInMonth_pos (y m : Nat) : 1 ≤ daysInMonth y m := by
  unfold daysInMonth
  split_ifs <;> omega

/-- `isoZParse` computed on an arbitrary 24-character candidate whose
separator positions hold the canonical separators. -/
theorem isoZParse_chars (y1 y2 y3 y4 o1 o2 d1 d2 h1 h2 i1 i2 e1 e2 f1 f2 f3 : Char) :
    isoZParse ⟨[y1, y2, y3, y4, '-', o1, o2, '-', d1, d2, 'T',
      h1, h2, ':', i1, i2, ':', e1, e2, '.', f1, f2, f3, 'Z']⟩ =
    (if ([y1, y2, y3, y4, o1, o2, d1, d2, h1, h2, i1, i2, e1, e2, f1, f2, f3].all
        isDigitJS) then
      let y := 1000 * digVal y1 + 100 * digVal y2 + 10 * digVal y3 + digVal y4
      let mo := 10 * digVal o1 + digVal o2
      let d := 10 * digVal d1 + digVal d2
      let h := 10 * digVal h1 + digVal h2
      let mi := 10 * digVal i1 + digVal i2
      let se := 10 * digVal e1 + digVal e2
      let ms := 100 * digVal f1 + 10 * digVal f2 + digVal f3
      if 1 ≤ mo && mo ≤ 12 && 1 ≤ d && d ≤ daysInMonth y mo &&
          h ≤ 23 && mi ≤ 59 && se ≤ 59 then
        some (daysFromCivil (y : Int) mo d * 86400000 +
          ((h * 3600000 + mi * 60000 + se * 1000 + ms : Nat) : Int))
      else none
    else none) := rfl

/-- `isoZParse` accepts the zero-padded rendering of in-range
components and returns exactly their time value. -/
theorem isoZParse_pads (y mo d h mi se ms : Nat) (hy : y ≤ 9999) (hmo1 : 1 ≤ mo)
    (hmo2 : mo ≤ 12) (hd1 : 1 ≤ d) (hd2 : d ≤ daysInMonth y mo) (hh : h ≤ 23)
    (hmi : mi ≤ 59) (hse : se ≤ 59) (hms : ms ≤ 999) :
    isoZParse ⟨pad4 y ++ '-' :: pad2 mo ++ '-' :: pad2 d ++ 'T' :: pad2 h ++ ':' :: pad2 mi ++
      ':' :: pad2 se ++ '.' :: pad3 ms ++ ['Z']⟩ =
      some (daysFromCivil (y : Int) mo d * 86400000 +
        ((h * 3600000 + mi * 60000 + se * 1000 + ms : Nat) : Int)) := by
  have hstr : (⟨pad4 y ++ '-' :: pad2 mo ++ '-' :: pad2 d ++ 'T' :: pad2 h ++ ':' :: pad2 mi ++
      ':' :: pad2 se ++ '.' :: pad3 ms ++ ['Z']⟩ : String) =
      ⟨[Nat.digitChar (y / 1000 % 10), Nat.digitChar (y / 100 % 10),
        Nat.digitChar (y / 10 % 10), Nat.digitChar (y % 10), '-',
        Nat.digitChar (mo / 10 % 10), Nat.digitChar (mo % 10), '-',
        Nat.digitChar (d / 10 % 10), Nat.digitChar (d % 10), 'T',
        Nat.digitChar (h / 10 % 10), Nat.digitChar (h % 10), ':',
        Nat.digitChar (mi / 10 % 10), Nat.digitChar (mi % 10), ':',
        Nat.digitChar (se / 10 % 10), Nat.digitChar (se % 10), '.',
        Nat.digitChar (ms / 100 % 10), Nat.digitChar (ms / 10 % 10),
        Nat.digitChar (ms % 10), 'Z']⟩ := rfl
  rw [hstr, isoZParse_chars]
  have hdig : ([Nat.digitChar (y / 1000 % 10), Nat.digitChar (y / 100 % 10),
      Nat.digitChar (y / 10 % 10), Nat.digitChar (y % 10),
      Nat.digitChar (mo / 10 % 10), Nat.digitChar (mo % 10),
      Nat.digitChar (d / 10 % 10), Nat.digitChar (d % 10),
      Nat.digitChar (h / 10 % 10), Nat.digitChar (h % 10),
      Nat.digitChar (mi / 10 % 10), Nat.digitChar (mi % 10),
      Nat.digitChar (se / 10 % 10), Nat.digitChar (se % 10),
      Nat.digitChar (ms / 100 % 10), Nat.digitChar (ms / 10 % 10),
      Nat.digitChar (ms % 10)].all isDigitJS) = true := by
    simp only [List.all_cons, List.all_nil, digitChar10_isDigit, Bool.and_self]
  rw [if_pos hdig]
  simp only [digVal_digitChar10]
  have hyv : 1000 * (y / 1000 % 10) + 100 * (y / 100 % 10) + 10 * (y / 10 % 10) + y % 10 = y := by
    omega
  have hmov : 10 * (mo / 10 % 10) + mo % 10 = mo := by omega
  have hdv : 10 * (d / 10 % 10) + d % 10 = d := by
    have : d ≤ 31 := le_trans hd2 (by unfold daysInMonth; split_ifs <;> omega)
    omega
  have hhv : 10 * (h / 10 % 10) + h % 10 = h := by omega
  have hmiv : 10 * (mi / 10 % 10) + mi % 10 = mi := by omega
  have hsev : 10 * (se / 10 % 10) + se % 10 = se := by omega
  have hmsv : 100 * (ms / 100 % 10) + 10 * (ms / 10 % 10) + ms % 10 = ms := by omega
  rw [hyv, hmov, hdv, hhv, hmiv, hsev, hmsv]
  rw [if_pos]
  simp only [Bool.and_eq_true, decide_eq_true_eq]
  omega

theorem iso_spec (t days : Int) (msd : Nat) (ymd : Int × Nat × Nat)
    (h1 : days = Int.fdiv t 86400000)
    (h2 : msd = Int.toNat (Int.fmod t 86400000))
    (h3 : ymd = civilFromDays days) :
    isoOfMillis t =
      ⟨(if 0 ≤ ymd.1 ∧ ymd.1 ≤ 9999 then pad4 ymd.1.toNat
        else if ymd.1 < 0 then '-' :: pad6 (-ymd.1).toNat
        else '+' :: pad6 ymd.1.toNat) ++ '-' :: pad2 ymd.2.1 ++ '-' :: pad2 ymd.2.2 ++
        'T' :: pad2 (msd / 3600000) ++ ':' :: pad2 (msd / 60000 % 60) ++
        ':' :: pad2 (msd / 1000 % 60) ++ '.' :: pad3 (msd % 1000) ++ ['Z']⟩ := by
  subst h1 h2 h3; rfl

/-- `toISOString` of a first-of-the-month instant renders the
components back as the canonical zero-padded string. -/
theorem isoOfMillis_day1 (y mo : Nat) (tod : Int) (hy : y ≤ 9999) (hmo1 : 1 ≤ mo)
    (hmo2 : mo ≤ 12) (htod0 : 0 ≤ tod) (htod : tod < 86400000) :
    isoOfMillis (daysFromCivil (y : Int) mo 1 * 86400000 + tod) =
      ⟨pad4 y ++ '-' :: pad2 mo ++ '-' :: pad2 1 ++ 'T' :: pad2 (tod.toNat / 3600000) ++
        ':' :: pad2 (tod.toNat / 60000 % 60) ++ ':' :: pad2 (tod.toNat / 1000 % 60) ++
        '.' :: pad3 (tod.toNat % 1000) ++ ['Z']⟩ := by
  obtain ⟨D, hD⟩ : ∃ v : Int, daysFromCivil (y : Int) mo 1 = v := ⟨_, rfl⟩
  have hdays : D = Int.fdiv (D * 86400000 + tod) 86400000 := by
    rw [Int.fdiv_eq_ediv _ (by norm_num)]
    omega
  have hmsd : tod.toNat = Int.toNat (Int.fmod (D * 86400000 + tod) 86400000) := by
    rw [Int.fmod_eq_emod _ (by norm_num)]
    omega
  have hymd : ((y : Int), mo, 1) = civilFromDays D := by
    rw [← hD, civil_roundtrip_day1 (y : Int) mo (by positivity) (by exact_mod_cast hy) hmo1 hmo2]
  rw [hD, iso_spec (D * 86400000 + tod) D tod.toNat ((y : Int), mo, 1) hdays hmsd hymd]
  have hpos : (0 ≤ ((y : Int), mo, 1).1 ∧ ((y : Int), mo, 1).1 ≤ 9999) :=
    ⟨show (0 : Int) ≤ (y : Int) by positivity,
     show (y : Int) ≤ (9999 : Int) by exact_mod_cast hy⟩
  rw [if_pos hpos]
  simp only [Int.toNat_natCast]

/-- The canonical parse/render round-trip at day `01`: re-parsing the
rendered first-of-the-month instant restores the exact time value. -/
theorem isoZParse_isoOfMillis_day1 (y mo : Nat) (tod : Int) (hy : y ≤ 9999) (hmo1 : 1 ≤ mo)
    (hmo2 : mo ≤ 12) (htod0 : 0 ≤ tod) (htod : tod < 86400000) :
    isoZParse (isoOfMillis (daysFromCivil (y : Int) mo 1 * 86400000 + tod)) =
      some (daysFromCivil (y : Int) mo 1 * 86400000 + tod) := by
  rw [isoOfMillis_day1 y mo tod hy hmo1 hmo2 htod0 htod]
  rw [isoZParse_pads y mo 1 (tod.toNat / 3600000) (tod.toNat / 60000 % 60)
    (tod.toNat / 1000 % 60) (tod.toNat % 1000) hy hmo1 hmo2 (le_refl 1)
    (daysInMonth_pos y mo) (by omega) (by omega) (by omega) (by omega)]
  congr 1
  have : (tod.toNat / 3600000 * 3600000 + tod.toNat / 60000 % 60 * 60000 +
      tod.toNat / 1000 % 60 * 1000 + tod.toNat % 1000 : Nat) = tod.toNat := by omega
  rw [this]
  omega

/-- The closed level enumeration named by the specification (§3):
{TRACE, DEBUG, INFO, WARN, ERROR, FATAL, CRITICAL}. -/
def specLevelEnum : List String :=
  ["TRACE", "DEBUG", "INFO", "WARN", "ERROR", "FATAL", "CRITICAL"]

/-- C2: the claim fails on the code and the code contradicts its own
aliasing branch.  `normalizeLevel` maps the input `WARNING` (in any
letter case) to `WARNING` itself — not to `WARN` — because `WARNING` is
a member of its `validLevels` array and the membership test returns
before the explicit `WARNING ↦ WARN` aliasing line can run; `WARNING` is
not a member of the closed enumeration the specification prescribes, so
the returned value also escapes that enumeration. -/
theorem C2_normalizeLevel_warning_escapes_enum :
    BaseParser.normalizeLevel "WARNING" = "WARNING" ∧
    BaseParser.normalizeLevel "warning" = "WARNING" ∧
    BaseParser.normalizeLevel "Warning" = "WARNING" ∧
    "WARNING" ∉ specLevelEnum := by
  decide

/-- C8: the claim fails on the code and the code contradicts its own
masking rule.  In `clusterSimilarLines` the `\b\d+\b → <NUM>` pass runs
*before* the IPv4 pass, so the octets of an IPv4 address are already
masked when the `<IP>` rule runs and the fixed placeholder `<IP>` never
appears: an address masks to `<NUM>.<NUM>.<NUM>.<NUM>`.  Two lines
differing only in the address do still mask identically. -/
theorem C8_ip_masked_as_num_chain :
    LogAnalyzer.maskLine "connect to 10.2.3.4 failed" =
      "connect to <NUM>.<NUM>.<NUM>.<NUM> failed" ∧
    jsIncludes (LogAnalyzer.maskLine "connect to 10.2.3.4 failed") "<IP>" = false ∧
    LogAnalyzer.maskLine "connect to 10.2.3.4 failed" =
      LogAnalyzer.maskLine "connect to 192.168.0.77 failed" := by
  refine ⟨by decide, by decide, by decide⟩

/-- C3: the claim fails on the code and the code contradicts its own
close-handler comment ("process the last log").  At end of stream the
buffered `previousLog` is finalized only under
`context.stackLines.length > 0`: a Renderer file whose last (here,
only) logical record is a primary line with *no* trailing
stack-continuation lines loses that record entirely — zero records out
of one consumed line — while the same file with a trailing stack line
does yield the record. -/
theorem C3_renderer_final_line_dropped_without_stack :
    (LogParserManager.streamParseRenderer utcEnv "renderer.log"
        ["[2025-01-01 10:00:00] [INFO] [mod] hello | k=v"]).logs = [] ∧
    (LogParserManager.streamParseRenderer utcEnv "renderer.log"
        ["[2025-01-01 10:00:00] [INFO] [mod] hello | k=v"]).successfulLogs = 0 ∧
    (LogParserManager.streamParseRenderer utcEnv "renderer.log"
        ["[2025-01-01 10:00:00] [INFO] [mod] hello | k=v"]).totalLines = 1 ∧
    (LogParserManager.streamParseRenderer utcEnv "renderer.log"
        ["[2025-01-01 10:00:00] [INFO] [mod] hello | k=v",
         "    at fn (file.js:1:2)"]).successfulLogs = 1 := by
  refine ⟨by decide, by decide, by decide, by decide⟩

/-- C6: the final sort of `detectPatterns` orders every issue list by
severity rank (CRITICAL before HIGH before MEDIUM before LOW) and,
within a rank, by descending occurrence count, permuting the input;
on severities [LOW, CRITICAL, HIGH] with equal counts it yields
[CRITICAL, HIGH, LOW]. -/
theorem C6_detectPatterns_sort_spec :
    (∀ issues : List LogAnalyzer.DetectedIssue,
       List.Sorted LogAnalyzer.issueLE (LogAnalyzer.sortDetectedIssues issues) ∧
       (LogAnalyzer.sortDetectedIssues issues).Perm issues) ∧
    LogAnalyzer.sortDetectedIssues
        [⟨"p-low", .LOW, 3⟩, ⟨"p-crit", .CRITICAL, 3⟩, ⟨"p-high", .HIGH, 3⟩] =
      [⟨"p-crit", .CRITICAL, 3⟩, ⟨"p-high", .HIGH, 3⟩, ⟨"p-low", .LOW, 3⟩] := by
  refine ⟨fun issues => ⟨List.sorted_insertionSort _ _, List.perm_insertionSort _ _⟩, ?_⟩
  decide

theorem addToClusters_pos (acc : List LogAnalyzer.Cluster) (x : LogAnalyzer.ParsedLine)
    (h : (acc.find? (fun c => c.pattern = LogAnalyzer.maskLine x.message)).isSome = true) :
    LogAnalyzer.addToClusters acc x = acc.map (fun c =>
      if c.pattern = LogAnalyzer.maskLine x.message then
        { c with count := c.count + 1, lineNumbers := c.lineNumbers ++ [x.lineNumber] }
      else c) := by
  unfold LogAnalyzer.addToClusters
  simp [h]

theorem addToClusters_neg (acc : List LogAnalyzer.Cluster) (x : LogAnalyzer.ParsedLine)
    (h : (acc.find? (fun c => c.pattern = LogAnalyzer.maskLine x.message)).isSome = false) :
    LogAnalyzer.addToClusters acc x = acc ++
      [{ pattern := LogAnalyzer.maskLine x.message, sample := x.message, count := 1,
         lineNumbers := [x.lineNumber] }] := by
  unfold LogAnalyzer.addToClusters
  simp [h]

theorem addToClusters_inv (processed : List LogAnalyzer.ParsedLine)
    (acc : List LogAnalyzer.Cluster) (x : LogAnalyzer.ParsedLine)
    (h1 : (acc.map (fun c => c.pattern)).Nodup)
    (h2 : ∀ c ∈ acc, c.count = (processed.filter
      (fun y => LogAnalyzer.maskLine y.message = c.pattern)).length)
    (h3 : ∀ y ∈ processed, LogAnalyzer.maskLine y.message ∈ acc.map (fun c => c.pattern)) :
    ((LogAnalyzer.addToClusters acc x).map (fun c => c.pattern)).Nodup ∧
    (∀ c ∈ LogAnalyzer.addToClusters acc x, c.count = ((processed ++ [x]).filter
      (fun y => LogAnalyzer.maskLine y.message = c.pattern)).length) ∧
    (∀ y ∈ processed ++ [x], LogAnalyzer.maskLine y.message ∈
      (LogAnalyzer.addToClusters acc x).map (fun c => c.pattern)) := by
  by_cases hfind : (acc.find? (fun c => c.pattern = LogAnalyzer.maskLine x.message)).isSome
  · rw [addToClusters_pos acc x hfind]
    have hpat : ((acc.map (fun c =>
        if c.pattern = LogAnalyzer.maskLine x.message then
          { c with count := c.count + 1, lineNumbers := c.lineNumbers ++ [x.lineNumber] }
        else c)).map (fun c => c.pattern)) = acc.map (fun c => c.pattern) := by
      rw [List.map_map]
      refine List.map_congr_left (fun c _ => ?_)
      by_cases hc : c.pattern = LogAnalyzer.maskLine x.message <;> simp [hc]
    refine ⟨by rw [hpat]; exact h1, ?_, ?_⟩
    · intro c' hc'
      rw [List.mem_map] at hc'
      obtain ⟨c, hc, rfl⟩ := hc'
      have h2c := h2 c hc
      by_cases hcp : c.pattern = LogAnalyzer.maskLine x.message
      · simp only [if_pos hcp, List.filter_append]
        rw [hcp] at h2c
        simp [hcp, ← h2c]
      · simp only [if_neg hcp, List.filter_append]
        have hx : ¬ (LogAnalyzer.maskLine x.message = c.pattern) := fun he => hcp he.symm
        simp [hx, h2c.symm]
    · intro y hy
      rw [hpat]
      rcases List.mem_append.mp hy with hy | hy
      · exact h3 y hy
      · simp only [List.mem_singleton] at hy
        subst hy
        obtain ⟨c, hc, hcp⟩ := List.find?_isSome.mp hfind
        simp only [decide_eq_true_eq] at hcp
        exact List.mem_map.mpr ⟨c, hc, hcp⟩
  · have hnone : acc.find? (fun c => c.pattern = LogAnalyzer.maskLine x.message) = none :=
      Option.not_isSome_iff_eq_none.mp hfind
    have hnotin : ∀ c ∈ acc, c.pattern ≠ LogAnalyzer.maskLine x.message := by
      intro c hc
      have := List.find?_eq_none.mp hnone c hc
      simpa using this
    rw [addToClusters_neg acc x (by simp [hnone])]
    refine ⟨?_, ?_, ?_⟩
    · rw [List.map_append, List.nodup_append]
      refine ⟨h1, by simp, ?_⟩
      intro a ha hb
      simp only [List.map_cons, List.map_nil, List.mem_singleton] at hb
      subst hb
      obtain ⟨c, hc, hcp⟩ := List.mem_map.mp ha
      exact hnotin c hc hcp
    · intro c' hc'
      rcases List.mem_append.mp hc' with hc' | hc'
      · have h2c := h2 c' hc'
        have hx : ¬ (LogAnalyzer.maskLine x.message = c'.pattern) :=
          fun he => hnotin c' hc' he.symm
        rw [List.filter_append]
        simp [hx, h2c.symm]
      · simp only [List.mem_singleton] at hc'
        subst hc'
        rw [List.filter_append]
        have hproc : processed.filter
            (fun y => LogAnalyzer.maskLine y.message = LogAnalyzer.maskLine x.message) = [] := by
          rw [List.filter_eq_nil_iff]
          intro y hy hmask
          simp only [decide_eq_true_eq] at hmask
          obtain ⟨c, hc, hcp⟩ := List.mem_map.mp (h3 y hy)
          rw [hmask] at hcp
          exact hnotin c hc hcp
        simp [hproc]
    · intro y hy
      rw [List.map_append]
      rcases List.mem_append.mp hy with hy | hy
      · exact List.mem_append.mpr (Or.inl (h3 y hy))
      · simp only [List.mem_singleton] at hy
        subst hy
        simp

theorem clustersFoldl_inv (lines : List LogAnalyzer.ParsedLine) :
    ∀ (processed : List LogAnalyzer.ParsedLine) (acc : List LogAnalyzer.Cluster),
      (acc.map (fun c => c.pattern)).Nodup →
      (∀ c ∈ acc, c.count = (processed.filter
        (fun y => LogAnalyzer.maskLine y.message = c.pattern)).length) →
      (∀ y ∈ processed, LogAnalyzer.maskLine y.message ∈ acc.map (fun c => c.pattern)) →
      ∀ c ∈ List.foldl LogAnalyzer.addToClusters acc lines,
        c.count = ((processed ++ lines).filter
          (fun y => LogAnalyzer.maskLine y.message = c.pattern)).length := by
  induction lines with
  | nil => intro processed acc h1 h2 h3; simpa using h2
  | cons x rest ih =>
    intro processed acc h1 h2 h3
    obtain ⟨s1, s2, s3⟩ := addToClusters_inv processed acc x h1 h2 h3
    have := ih (processed ++ [x]) (LogAnalyzer.addToClusters acc x) s1 s2 s3
    simpa [List.append_assoc] using this

theorem clusters_count_correct (lines : List LogAnalyzer.ParsedLine) :
    ∀ c ∈ List.foldl LogAnalyzer.addToClusters [] lines,
      c.count = (lines.filter
        (fun y => LogAnalyzer.maskLine y.message = c.pattern)).length := by
  have := clustersFoldl_inv lines [] [] (by simp) (by simp) (by simp)
  simpa using this

/-- C7 main. -/
theorem C7_clusterSimilarLines_spec :
    (∀ (lines : List LogAnalyzer.ParsedLine) (threshold : Nat),
      (∀ c ∈ LogAnalyzer.clusterSimilarLines lines threshold,
         threshold ≤ c.count ∧
         c.count = (lines.filter
           (fun y => LogAnalyzer.maskLine y.message = c.pattern)).length) ∧
      List.Sorted LogAnalyzer.clusterGE (LogAnalyzer.clusterSimilarLines lines threshold) ∧
      (LogAnalyzer.clusterSimilarLines lines threshold).length ≤ 20) ∧
    LogAnalyzer.clusterSimilarLines
        [⟨1, "Error at <2>"⟩, ⟨2, "Error at <2>"⟩, ⟨3, "Error at <2>"⟩,
         ⟨4, "Error at <2>"⟩] = [] ∧
    LogAnalyzer.clusterSimilarLines
        [⟨1, "Error at <2>"⟩, ⟨2, "Error at <2>"⟩, ⟨3, "Error at <2>"⟩,
         ⟨4, "Error at <2>"⟩, ⟨5, "Error at <2>"⟩] =
      [{ pattern := "Error at <<NUM>>", sample := "Error at <2>", count := 5,
         lineNumbers := [1, 2, 3, 4, 5] }] := by
  refine ⟨fun lines threshold => ⟨?_, ?_, ?_⟩, by decide, by decide⟩
  · intro c hc
    have hc1 : c ∈ List.insertionSort LogAnalyzer.clusterGE
        ((List.foldl LogAnalyzer.addToClusters [] lines).filter
          (fun c => threshold ≤ c.count)) := List.mem_of_mem_take hc
    have hc2 : c ∈ (List.foldl LogAnalyzer.addToClusters [] lines).filter
        (fun c => threshold ≤ c.count) :=
      (List.perm_insertionSort _ _).mem_iff.mp hc1
    obtain ⟨hc3, hc4⟩ := List.mem_filter.mp hc2
    refine ⟨by simpa using hc4, clusters_count_correct lines c hc3⟩
  · exact List.Pairwise.sublist (List.take_sublist _ _)
      (List.sorted_insertionSort _ _)
  · exact List.length_take_le _ _

/-- C7 (witness): the single cluster of the five-line instance meets the
threshold and counts exactly the lines sharing its masked form. -/
theorem C7_clusterSimilarLines_spec_witness :
    5 ≤ ({ pattern := "Error at <<NUM>>", sample := "Error at <2>", count := 5,
           lineNumbers := [1, 2, 3, 4, 5] } : LogAnalyzer.Cluster).count ∧
    ({ pattern := "Error at <<NUM>>", sample := "Error at <2>", count := 5,
       lineNumbers := [1, 2, 3, 4, 5] } : LogAnalyzer.Cluster).count =
      (([⟨1, "Error at <2>"⟩, ⟨2, "Error at <2>"⟩, ⟨3, "Error at <2>"⟩,
         ⟨4, "Error at <2>"⟩, ⟨5, "Error at <2>"⟩] : List LogAnalyzer.ParsedLine).filter
        (fun y => LogAnalyzer.maskLine y.message =
          ({ pattern := "Error at <<NUM>>", sample := "Error at <2>", count := 5,
             lineNumbers := [1, 2, 3, 4, 5] } : LogAnalyzer.Cluster).pattern)).length :=
  (C7_clusterSimilarLines_spec.1
      [⟨1, "Error at <2>"⟩, ⟨2, "Error at <2>"⟩, ⟨3, "Error at <2>"⟩,
       ⟨4, "Error at <2>"⟩, ⟨5, "Error at <2>"⟩] 5).1 _ (by decide)

theorem firstMax_eq_none {l : List FormatDetector.Entry} :
    firstMax l = none ↔ l = [] := by
  cases l with
  | nil => simp [firstMax]
  | cons x xs =>
    simp only [firstMax]
    cases firstMax xs <;> simp
    split <;> simp

theorem firstMax_mem (l : List FormatDetector.Entry) :
    ∀ b : FormatDetector.Entry, firstMax l = some b → b ∈ l := by
  induction l with
  | nil => intro b h; simp [firstMax] at h
  | cons x xs ih =>
    intro b h
    simp only [firstMax] at h
    cases hx : firstMax xs with
    | none => rw [hx] at h; simp at h; simp [h]
    | some a =>
      rw [hx] at h
      simp only at h
      by_cases hlt : x.score < a.score
      · rw [if_pos hlt] at h
        simp only [Option.some.injEq] at h
        subst h
        exact List.mem_cons_of_mem _ (ih a hx)
      · rw [if_neg hlt] at h
        simp only [Option.some.injEq] at h
        simp [h]

theorem firstMax_le (l : List FormatDetector.Entry) :
    ∀ b : FormatDetector.Entry, firstMax l = some b →
      ∀ e ∈ l, e.score ≤ b.score := by
  induction l with
  | nil => intro b h; simp [firstMax] at h
  | cons x xs ih =>
    intro b h
    simp only [firstMax] at h
    cases hx : firstMax xs with
    | none =>
      rw [hx] at h; simp at h; subst h
      have hxs : xs = [] := firstMax_eq_none.mp hx
      subst hxs
      simp
    | some a =>
      rw [hx] at h
      simp only at h
      by_cases hlt : x.score < a.score
      · rw [if_pos hlt] at h
        simp only [Option.some.injEq] at h
        subst h
        intro e he
        rcases List.mem_cons.mp he with rfl | he
        · exact le_of_lt hlt
        · exact ih a hx e he
      · rw [if_neg hlt] at h
        simp only [Option.some.injEq] at h
        subst h
        intro e he
        rcases List.mem_cons.mp he with rfl | he
        · exact le_refl _
        · exact le_trans (ih a hx e he) (not_lt.mp hlt)

theorem firstMax_split (l : List FormatDetector.Entry) :
    ∀ b : FormatDetector.Entry, firstMax l = some b →
      ∃ pre post, l = pre ++ b :: post ∧ ∀ e ∈ pre, e.score < b.score := by
  induction l with
  | nil => intro b h; simp [firstMax] at h
  | cons x xs ih =>
    intro b h
    simp only [firstMax] at h
    cases hx : firstMax xs with
    | none =>
      rw [hx] at h; simp at h; subst h
      exact ⟨[], xs, rfl, by simp⟩
    | some a =>
      rw [hx] at h
      simp only at h
      by_cases hlt : x.score < a.score
      · rw [if_pos hlt] at h
        simp only [Option.some.injEq] at h
        subst h
        obtain ⟨pre, post, heq, hpre⟩ := ih a hx
        refine ⟨x :: pre, post, by simp [heq], ?_⟩
        intro e he
        rcases List.mem_cons.mp he with rfl | he
        · exact hlt
        · exact hpre e he
      · rw [if_neg hlt] at h
        simp only [Option.some.injEq] at h
        subst h
        exact ⟨[], xs, rfl, by simp⟩

theorem orderedInsert_head (x : FormatDetector.Entry) (s : List FormatDetector.Entry) :
    (List.orderedInsert FormatDetector.entryGE x s).head? =
      some (match s with
            | [] => x
            | y :: _ => if FormatDetector.entryGE x y then x else y) := by
  cases s with
  | nil => rfl
  | cons y ys =>
    simp only [List.orderedInsert]
    split <;> rfl

theorem insertionSort_head (l : List FormatDetector.Entry) :
    (List.insertionSort FormatDetector.entryGE l).head? = firstMax l := by
  induction l with
  | nil => rfl
  | cons x xs ih =>
    rw [List.insertionSort, orderedInsert_head]
    cases hs : List.insertionSort FormatDetector.entryGE xs with
    | nil =>
      have hxs : xs = [] := by
        have hp := List.perm_insertionSort FormatDetector.entryGE xs
        rw [hs] at hp
        exact (hp.symm).eq_nil
      subst hxs
      simp [firstMax]
    | cons y ys =>
      have hy : firstMax xs = some y := by rw [← ih, hs]; rfl
      simp only [firstMax, hy]
      by_cases hle : FormatDetector.entryGE x y
      · rw [if_pos hle]
        rw [if_neg (not_lt.mpr hle)]
      · rw [if_neg hle]
        rw [if_pos (lt_of_not_le hle)]

theorem mem_ite_singleton {P : Prop} [Decidable P] {a e : FormatDetector.Entry} :
    (e ∈ if P then [a] else ([] : List FormatDetector.Entry)) ↔ P ∧ e = a := by
  split
  · next h => simp [h]
  · next h => simp [h]

theorem mem_results {c : FormatDetector.ScorerCounts} {e : FormatDetector.Entry} :
    e ∈ FormatDetector.results c ↔
      (0 < FormatDetector.scoreOf c.renderer ∧
        e = ⟨.renderer, FormatDetector.scoreOf c.renderer⟩) ∨
      (0 < FormatDetector.scoreOf c.http ∧
        e = ⟨.http, FormatDetector.scoreOf c.http⟩) ∨
      (0 < FormatDetector.scoreOf c.syncApp ∧
        e = ⟨.syncApp, FormatDetector.scoreOf c.syncApp⟩) ∨
      (0 < FormatDetector.scoreOf c.performance ∧
        e = ⟨.performance, FormatDetector.scoreOf c.performance⟩) ∨
      (0 < FormatDetector.scoreOf c.mountApp ∧
        e = ⟨.mountApp, FormatDetector.scoreOf c.mountApp⟩) := by
  simp only [FormatDetector.results, List.mem_append, mem_ite_singleton, gt_iff_lt,
    or_assoc]

theorem results_pairwise (c : FormatDetector.ScorerCounts) :
    (FormatDetector.results c).Pairwise
      (fun a b => FormatDetector.idx a.format < FormatDetector.idx b.format) := by
  have hsub : List.Sublist (FormatDetector.results c)
      ([⟨.renderer, FormatDetector.scoreOf c.renderer⟩] ++
       [⟨.http, FormatDetector.scoreOf c.http⟩] ++
       [⟨.syncApp, FormatDetector.scoreOf c.syncApp⟩] ++
       [⟨.performance, FormatDetector.scoreOf c.performance⟩] ++
       [⟨.mountApp, FormatDetector.scoreOf c.mountApp⟩] : List FormatDetector.Entry) := by
    unfold FormatDetector.results
    refine List.Sublist.append (List.Sublist.append (List.Sublist.append
      (List.Sublist.append ?_ ?_) ?_) ?_) ?_ <;>
      (split <;> simp)
  refine List.Pairwise.sublist hsub ?_
  simp [List.pairwise_cons, FormatDetector.idx]

theorem scoreOf_eq_min (m : Nat) : FormatDetector.scoreOf m = min ((m : ℚ) / 5) 1 := by
  rw [min_def]
  rfl

theorem scoreOf_nonneg (m : Nat) : 0 ≤ FormatDetector.scoreOf m := by
  rw [scoreOf_eq_min]
  exact le_min (by positivity) zero_le_one

theorem scoreOf_pos {m : Nat} : 0 < FormatDetector.scoreOf m ↔ m ≠ 0 := by
  rw [scoreOf_eq_min]
  constructor
  · intro h hm
    subst hm
    norm_num at h
  · intro hm
    have h1 : (0 : ℚ) < (m : ℚ) := by exact_mod_cast Nat.pos_of_ne_zero hm
    exact lt_min (by positivity) one_pos

theorem entry_mem_results {c : FormatDetector.ScorerCounts} {f : FormatDetector.Format}
    (hf : FormatDetector.countOf c f ≠ 0) (hne : f ≠ .unknown) :
    (⟨f, FormatDetector.scoreOf (FormatDetector.countOf c f)⟩ : FormatDetector.Entry) ∈
      FormatDetector.results c := by
  have hpos := scoreOf_pos.mpr hf
  cases f with
  | renderer => exact mem_results.mpr (Or.inl ⟨hpos, rfl⟩)
  | http => exact mem_results.mpr (Or.inr (Or.inl ⟨hpos, rfl⟩))
  | syncApp => exact mem_results.mpr (Or.inr (Or.inr (Or.inl ⟨hpos, rfl⟩)))
  | performance => exact mem_results.mpr (Or.inr (Or.inr (Or.inr (Or.inl ⟨hpos, rfl⟩))))
  | mountApp => exact mem_results.mpr (Or.inr (Or.inr (Or.inr (Or.inr ⟨hpos, rfl⟩))))
  | unknown => exact absurd rfl hne

/-- C4: for every sample (equivalently, for every vector of scorer
match counts), `detect` returns the format whose scorer scored highest
with confidence `min(matches / 5, 1.0)` of that scorer's match count;
ties between equal scores go to the earlier scorer in evaluation order
(every strictly earlier format scored strictly less); and the result is
UNKNOWN with confidence 0 exactly when every scorer returned 0. -/
theorem C4_detect_spec (c : FormatDetector.ScorerCounts) :
    ((FormatDetector.detect c).format = .unknown ↔ ∀ f, FormatDetector.countOf c f = 0) ∧
    (FormatDetector.detect c).confidence =
      FormatDetector.scoreOf (FormatDetector.countOf c (FormatDetector.detect c).format) ∧
    (∀ f, FormatDetector.scoreOf (FormatDetector.countOf c f) ≤
      FormatDetector.scoreOf (FormatDetector.countOf c (FormatDetector.detect c).format)) ∧
    ((FormatDetector.detect c).format ≠ .unknown →
      ∀ f, FormatDetector.idx f < FormatDetector.idx (FormatDetector.detect c).format →
        FormatDetector.scoreOf (FormatDetector.countOf c f) <
          FormatDetector.scoreOf (FormatDetector.countOf c (FormatDetector.detect c).format)) := by
  cases hh : List.insertionSort FormatDetector.entryGE (FormatDetector.results c) with
  | nil =>
    have hres : FormatDetector.results c = [] := by
      have hp := List.perm_insertionSort FormatDetector.entryGE (FormatDetector.results c)
      rw [hh] at hp
      exact hp.symm.eq_nil
    have hall : ∀ f, FormatDetector.countOf c f = 0 := by
      intro f
      by_contra hf
      by_cases hne : f = FormatDetector.Format.unknown
      · subst hne; exact hf rfl
      · have hmem := entry_mem_results hf hne
        rw [hres] at hmem
        simp at hmem
    have hdet : FormatDetector.detect c = ⟨.unknown, 0⟩ := by
      simp only [FormatDetector.detect, hh]
    rw [hdet]
    refine ⟨by simpa using hall, ?_, ?_, ?_⟩
    · show (0 : ℚ) = FormatDetector.scoreOf 0
      norm_num [FormatDetector.scoreOf]
    · intro f
      rw [hall f]
      exact le_refl _
    · intro hne
      exact absurd rfl hne
  | cons b rest =>
    have hb : firstMax (FormatDetector.results c) = some b := by
      rw [← insertionSort_head, hh]
      rfl
    have hbmem := firstMax_mem _ b hb
    have hmax := firstMax_le _ b hb
    have hdet : FormatDetector.detect c = ⟨b.format, b.score⟩ := by
      simp only [FormatDetector.detect, hh]
    have hkey : b.format ≠ .unknown ∧
        b.score = FormatDetector.scoreOf (FormatDetector.countOf c b.format) ∧
        0 < b.score := by
      rcases mem_results.mp hbmem with ⟨h, rfl⟩ | ⟨h, rfl⟩ | ⟨h, rfl⟩ | ⟨h, rfl⟩ | ⟨h, rfl⟩ <;>
        exact ⟨by simp, rfl, h⟩
    obtain ⟨hbne, hbscore, hbpos⟩ := hkey
    rw [hdet]
    refine ⟨?_, hbscore, ?_, ?_⟩
    · constructor
      · intro h
        exact absurd h hbne
      · intro hall
        exfalso
        rw [hbscore, hall b.format] at hbpos
        norm_num [FormatDetector.scoreOf] at hbpos
    · intro f
      rw [← hbscore]
      by_cases hf : FormatDetector.countOf c f = 0
      · rw [hf]
        have h0 : FormatDetector.scoreOf 0 = 0 := by norm_num [FormatDetector.scoreOf]
        rw [h0]
        exact le_of_lt hbpos
      · by_cases hne : f = FormatDetector.Format.unknown
        · subst hne; exact absurd rfl hf
        · exact hmax _ (entry_mem_results hf hne)
    · intro _ f hidx
      dsimp only at hidx
      rw [← hbscore]
      by_cases hf : FormatDetector.countOf c f = 0
      · rw [hf]
        have h0 : FormatDetector.scoreOf 0 = 0 := by norm_num [FormatDetector.scoreOf]
        rw [h0]
        exact hbpos
      · by_cases hne : f = FormatDetector.Format.unknown
        · subst hne; exact absurd rfl hf
        · have hmem := entry_mem_results hf hne
          obtain ⟨pre, post, heq, hpre⟩ := firstMax_split _ b hb
          have hpw := results_pairwise c
          rw [heq] at hpw hmem
          rcases List.mem_append.mp hmem with hm | hm
          · exact hpre _ hm
          · rcases List.mem_cons.mp hm with heqb | hm
            · exfalso
              have hfb : f = b.format := congrArg FormatDetector.Entry.format heqb
              rw [hfb] at hidx
              exact lt_irrefl _ hidx
            · exfalso
              have hpw2 := (List.pairwise_append.mp hpw).2.1
              have hlt := (List.pairwise_cons.mp hpw2).1 _ hm
              simp only at hlt
              omega

/-- Evaluation of `detect` on the counts (0, 3, 0, 3, 0): HTTP and
Performance tie at score 3/5 and HTTP, earlier in evaluation order,
wins. -/
theorem detect_http_perf_tie_eval :
    FormatDetector.detect ⟨0, 3, 0, 3, 0⟩ =
      ⟨FormatDetector.Format.http, FormatDetector.scoreOf 3⟩ := by
  norm_num [FormatDetector.detect, FormatDetector.results, FormatDetector.scoreOf,
    List.insertionSort, List.orderedInsert, FormatDetector.entryGE]

/-- C4 (witness): on counts (0, 3, 0, 3, 0) — an HTTP/Performance tie —
the winner is not UNKNOWN and the earlier-in-order Renderer scored
strictly less than the winner. -/
theorem C4_detect_spec_witness :
    FormatDetector.scoreOf (FormatDetector.countOf ⟨0, 3, 0, 3, 0⟩ .renderer) <
      FormatDetector.scoreOf (FormatDetector.countOf ⟨0, 3, 0, 3, 0⟩
        (FormatDetector.detect ⟨0, 3, 0, 3, 0⟩).format) :=
  (C4_detect_spec ⟨0, 3, 0, 3, 0⟩).2.2.2
    (by rw [detect_http_perf_tie_eval]; decide)
    FormatDetector.Format.renderer
    (by rw [detect_http_perf_tie_eval]; decide)

theorem streamGo_append {α : Type} (parse : String → Except String (Option α))
    (A B : List String) : ∀ (n : Nat) (r : LogParserManager.StreamResult α)
      (errs : List (String × Nat × String)),
    LogParserManager.streamGo parse (A ++ B) n r errs =
      LogParserManager.streamGo parse B (n + A.length)
        (LogParserManager.streamGo parse A n r errs).1
        (LogParserManager.streamGo parse A n r errs).2 := by
  induction A with
  | nil => intro n r errs; simp [LogParserManager.streamGo]
  | cons x A ih =>
    intro n r errs
    simp only [List.cons_append, List.length_cons, LogParserManager.streamGo,
      List.append_eq]
    rw [ih]
    have hn : n + 1 + A.length = n + (A.length + 1) := by omega
    rw [hn]

theorem streamGo_ok_some {α : Type} (parse : String → Except String (Option α))
    (lines : List String) : ∀ (n : Nat) (r : LogParserManager.StreamResult α)
      (errs : List (String × Nat × String)),
    (∀ l ∈ lines, isOkSome (parse l) = true) →
    (LogParserManager.streamGo parse lines n r errs).1.totalLines =
        r.totalLines + lines.length ∧
    (LogParserManager.streamGo parse lines n r errs).1.successfulLogs =
        r.successfulLogs + lines.length ∧
    (LogParserManager.streamGo parse lines n r errs).1.failedLines = r.failedLines ∧
    (LogParserManager.streamGo parse lines n r errs).1.logs.length =
        r.logs.length + lines.length ∧
    (LogParserManager.streamGo parse lines n r errs).2 = errs := by
  induction lines with
  | nil => intro n r errs _; simp [LogParserManager.streamGo]
  | cons x rest ih =>
    intro n r errs h
    have hx := h x (List.mem_cons_self x rest)
    simp only [LogParserManager.streamGo]
    cases hp : parse x with
    | error e => rw [hp] at hx; simp [isOkSome] at hx
    | ok o =>
      cases o with
      | none => rw [hp] at hx; simp [isOkSome] at hx
      | some a =>
        simp only [LogParserManager.processLine, hp]
        have := ih (n + 1)
          { totalLines := r.totalLines + 1, successfulLogs := r.successfulLogs + 1,
            failedLines := r.failedLines, logs := r.logs ++ [a] } errs
          (fun l hl => h l (List.mem_cons_of_mem _ hl))
        simp only [List.length_append, List.length_cons, List.length_nil] at this ⊢
        obtain ⟨h1, h2, h3, h4, h5⟩ := this
        refine ⟨by rw [h1]; omega, by rw [h2]; omega, h3, by rw [h4]; omega, h5⟩

theorem streamGo_no_throw {α : Type} (parse : String → Except String (Option α))
    (lines : List String) : ∀ (n : Nat) (r : LogParserManager.StreamResult α)
      (errs : List (String × Nat × String)),
    (∀ l ∈ lines, (parse l).isOk = true) →
    (LogParserManager.streamGo parse lines n r errs).1.totalLines =
        r.totalLines + lines.length ∧
    (LogParserManager.streamGo parse lines n r errs).1.successfulLogs =
        r.successfulLogs + lines.countP (fun l => isOkSome (parse l)) ∧
    (LogParserManager.streamGo parse lines n r errs).1.failedLines =
        r.failedLines + lines.countP (fun l => isOkNone (parse l)) ∧
    (LogParserManager.streamGo parse lines n r errs).2 = errs := by
  induction lines with
  | nil => intro n r errs _; simp [LogParserManager.streamGo]
  | cons x rest ih =>
    intro n r errs h
    have hx := h x (List.mem_cons_self x rest)
    simp only [LogParserManager.streamGo]
    cases hp : parse x with
    | error e => rw [hp] at hx; simp [Except.isOk, Except.toBool] at hx
    | ok o =>
      have hrest := fun (r2 : LogParserManager.StreamResult α) =>
        ih (n + 1) r2 errs (fun l hl => h l (List.mem_cons_of_mem _ hl))
      cases o with
      | some a =>
        simp only [LogParserManager.processLine, hp]
        obtain ⟨h1, h2, h3, h4⟩ := hrest
          { totalLines := r.totalLines + 1, successfulLogs := r.successfulLogs + 1,
            failedLines := r.failedLines, logs := r.logs ++ [a] }
        refine ⟨by rw [h1]; simp; omega, ?_, ?_, h4⟩
        · rw [h2]
          simp [List.countP_cons, hp, isOkSome]
          omega
        · rw [h3]
          simp [List.countP_cons, hp, isOkNone]
      | none =>
        simp only [LogParserManager.processLine, hp]
        obtain ⟨h1, h2, h3, h4⟩ := hrest
          { totalLines := r.totalLines + 1, successfulLogs := r.successfulLogs,
            failedLines := r.failedLines + 1, logs := r.logs }
        refine ⟨by rw [h1]; simp; omega, ?_, ?_, h4⟩
        · rw [h2]
          simp [List.countP_cons, hp, isOkSome]
        · rw [h3]
          simp [List.countP_cons, hp, isOkNone]
          omega

theorem countP_ok_split {α : Type} (parse : String → Except String (Option α))
    (lines : List String) (h : ∀ l ∈ lines, (parse l).isOk = true) :
    lines.countP (fun l => isOkSome (parse l)) +
      lines.countP (fun l => isOkNone (parse l)) = lines.length := by
  induction lines with
  | nil => simp
  | cons x rest ih =>
    have hx := h x (List.mem_cons_self x rest)
    have ih2 := ih (fun l hl => h l (List.mem_cons_of_mem _ hl))
    simp only [List.countP_cons, List.length_cons]
    cases hp : parse x with
    | error e => rw [hp] at hx; simp [Except.isOk, Except.toBool] at hx
    | ok o =>
      cases o with
      | some a =>
        have hs : isOkSome (Except.ok (some a) : Except String (Option α)) = true := rfl
        have hn : isOkNone (Except.ok (some a) : Except String (Option α)) = false := rfl
        rw [hs, hn]
        simp only [if_pos rfl]
        simp only [Bool.false_eq_true, if_false, if_true]
        omega
      | none =>
        have hs : isOkSome (Except.ok (none : Option α) : Except String (Option α)) = false := rfl
        have hn : isOkNone (Except.ok (none : Option α) : Except String (Option α)) = true := rfl
        rw [hs, hn]
        simp only [if_pos rfl]
        simp only [Bool.false_eq_true, if_false, if_true]
        omega

/-- C10 main. -/

theorem C10_streamParse_line_accounting {α : Type}
    (parse : String → Except String (Option α)) (lines : List String)
    (h : ∀ l ∈ lines, (parse l).isOk = true) :
    (LogParserManager.streamParseSimple parse lines).1.totalLines = lines.length ∧
    (LogParserManager.streamParseSimple parse lines).1.successfulLogs =
      lines.countP (fun l => isOkSome (parse l)) ∧
    (LogParserManager.streamParseSimple parse lines).1.failedLines =
      lines.countP (fun l => isOkNone (parse l)) ∧
    (LogParserManager.streamParseSimple parse lines).1.successfulLogs +
        (LogParserManager.streamParseSimple parse lines).1.failedLines =
      (LogParserManager.streamParseSimple parse lines).1.totalLines ∧
    (LogParserManager.streamParseSimple parse lines).2 = [] := by
  obtain ⟨h1, h2, h3, h4⟩ := streamGo_no_throw parse lines 0 ⟨0, 0, 0, []⟩ [] h
  have hsum := countP_ok_split parse lines h
  have e1 : (LogParserManager.streamParseSimple parse lines).1.totalLines = lines.length := by
    simpa using h1
  have e2 : (LogParserManager.streamParseSimple parse lines).1.successfulLogs =
      lines.countP (fun l => isOkSome (parse l)) := by simpa using h2
  have e3 : (LogParserManager.streamParseSimple parse lines).1.failedLines =
      lines.countP (fun l => isOkNone (parse l)) := by simpa using h3
  refine ⟨e1, e2, e3, ?_, h4⟩
  rw [e1, e2, e3]
  omega

/-- C5: for a stream of N lines in which parsing exactly one line
throws (and every other line parses to a record), `streamParse` ends
with `failedLines = 1`, still yields the N−1 records of the remaining
lines (the stream is not aborted), and invokes the error callback
exactly once, with the error, the 1-based line number of the throwing
line, and its raw text. -/
theorem C5_streamParse_one_throwing_line {α : Type}
    (parse : String → Except String (Option α)) (pre post : List String)
    (bad e : String) (hbad : parse bad = .error e)
    (hok : ∀ line ∈ pre ++ post, isOkSome (parse line) = true) :
    (LogParserManager.streamParseSimple parse (pre ++ bad :: post)).1.failedLines = 1 ∧
    (LogParserManager.streamParseSimple parse (pre ++ bad :: post)).1.successfulLogs =
      pre.length + post.length ∧
    (LogParserManager.streamParseSimple parse (pre ++ bad :: post)).1.successfulLogs + 1 =
      (pre ++ bad :: post).length ∧
    (LogParserManager.streamParseSimple parse (pre ++ bad :: post)).1.logs.length =
      pre.length + post.length ∧
    (LogParserManager.streamParseSimple parse (pre ++ bad :: post)).2 =
      [(e, pre.length + 1, bad)] := by
  obtain ⟨p1, p2, p3, p4, p5⟩ := streamGo_ok_some parse pre 0 ⟨0, 0, 0, []⟩ []
    (fun l hl => hok l (List.mem_append.mpr (Or.inl hl)))
  have happ := streamGo_append parse pre (bad :: post) 0 ⟨0, 0, 0, []⟩ []
  have hstep : LogParserManager.streamGo parse (bad :: post) (0 + pre.length)
      (LogParserManager.streamGo parse pre 0 ⟨0, 0, 0, []⟩ []).1
      (LogParserManager.streamGo parse pre 0 ⟨0, 0, 0, []⟩ []).2 =
    LogParserManager.streamGo parse post (0 + pre.length + 1)
      { (LogParserManager.streamGo parse pre 0 ⟨0, 0, 0, []⟩ []).1 with
        failedLines := (LogParserManager.streamGo parse pre 0 ⟨0, 0, 0, []⟩ []).1.failedLines + 1 }
      ((LogParserManager.streamGo parse pre 0 ⟨0, 0, 0, []⟩ []).2 ++
        [(e, 0 + pre.length + 1, bad)]) := by
    simp only [LogParserManager.streamGo, LogParserManager.processLine, hbad]
  obtain ⟨q1, q2, q3, q4, q5⟩ := streamGo_ok_some parse post (0 + pre.length + 1)
    { (LogParserManager.streamGo parse pre 0 ⟨0, 0, 0, []⟩ []).1 with
      failedLines := (LogParserManager.streamGo parse pre 0 ⟨0, 0, 0, []⟩ []).1.failedLines + 1 }
    ((LogParserManager.streamGo parse pre 0 ⟨0, 0, 0, []⟩ []).2 ++
      [(e, 0 + pre.length + 1, bad)])
    (fun l hl => hok l (List.mem_append.mpr (Or.inr hl)))
  have hmain : LogParserManager.streamParseSimple parse (pre ++ bad :: post) =
      LogParserManager.streamGo parse post (0 + pre.length + 1)
        { (LogParserManager.streamGo parse pre 0 ⟨0, 0, 0, []⟩ []).1 with
          failedLines :=
            (LogParserManager.streamGo parse pre 0 ⟨0, 0, 0, []⟩ []).1.failedLines + 1 }
        ((LogParserManager.streamGo parse pre 0 ⟨0, 0, 0, []⟩ []).2 ++
          [(e, 0 + pre.length + 1, bad)]) := by
    show LogParserManager.streamGo parse (pre ++ bad :: post) 0 ⟨0, 0, 0, []⟩ [] = _
    rw [happ, hstep]
  rw [hmain]
  refine ⟨?_, ?_, ?_, ?_, ?_⟩
  · rw [q3]
    simp [p3]
  · rw [q2]
    simp [p2]
  · rw [q2]
    simp [p2, List.length_append, List.length_cons]
    omega
  · rw [q4]
    simp [p4]
  · rw [q5, p5]
    simp

/-- C10 (witness): a stream with one blank line under a parser that
returns `null` on blank input. -/
theorem C10_streamParse_line_accounting_witness :
    (LogParserManager.streamParseSimple
        (fun s => if s = "" then Except.ok none else Except.ok (some s))
        ["a", "", "b"]).1.totalLines = 3 ∧
    (LogParserManager.streamParseSimple
        (fun s => if s = "" then Except.ok none else Except.ok (some s))
        ["a", "", "b"]).1.successfulLogs = 2 ∧
    (LogParserManager.streamParseSimple
        (fun s => if s = "" then Except.ok none else Except.ok (some s))
        ["a", "", "b"]).1.failedLines = 1 ∧
    (LogParserManager.streamParseSimple
        (fun s => if s = "" then Except.ok none else Except.ok (some s))
        ["a", "", "b"]).1.successfulLogs +
      (LogParserManager.streamParseSimple
        (fun s => if s = "" then Except.ok none else Except.ok (some s))
        ["a", "", "b"]).1.failedLines =
      (LogParserManager.streamParseSimple
        (fun s => if s = "" then Except.ok none else Except.ok (some s))
        ["a", "", "b"]).1.totalLines ∧
    (LogParserManager.streamParseSimple
        (fun s => if s = "" then Except.ok none else Except.ok (some s))
        ["a", "", "b"]).2 = [] :=
  C10_streamParse_line_accounting
    (fun s => if s = "" then Except.ok none else Except.ok (some s))
    ["a", "", "b"] (by decide)

/-- C5 (witness): a three-line stream whose middle line throws. -/
theorem C5_streamParse_one_throwing_line_witness :
    (LogParserManager.streamParseSimple
        (fun s => if s = "boom" then Except.error "x" else Except.ok (some s))
        (["a"] ++ "boom" :: ["c"])).1.failedLines = 1 ∧
    (LogParserManager.streamParseSimple
        (fun s => if s = "boom" then Except.error "x" else Except.ok (some s))
        (["a"] ++ "boom" :: ["c"])).1.successfulLogs = 2 ∧
    (LogParserManager.streamParseSimple
        (fun s => if s = "boom" then Except.error "x" else Except.ok (some s))
        (["a"] ++ "boom" :: ["c"])).1.successfulLogs + 1 = 3 ∧
    (LogParserManager.streamParseSimple
        (fun s => if s = "boom" then Except.error "x" else Except.ok (some s))
        (["a"] ++ "boom" :: ["c"])).1.logs.length = 2 ∧
    (LogParserManager.streamParseSimple
        (fun s => if s = "boom" then Except.error "x" else Except.ok (some s))
        (["a"] ++ "boom" :: ["c"])).2 = [("x", 2, "boom")] :=
  C5_streamParse_one_throwing_line
    (fun s => if s = "boom" then Except.error "x" else Except.ok (some s))
    ["a"] ["c"] "boom" "x" rfl (by decide)

theorem normalizeTimestamp_cases (env : DateEnv) (ts : String) :
    LogNormalizer.normalizeTimestamp env ts = "unknown" ∨
      ∃ t : Int, LogNormalizer.normalizeTimestamp env ts = isoOfMillis t := by
  unfold LogNormalizer.normalizeTimestamp
  split
  · exact Or.inl rfl
  · dsimp only
    split
    · exact Or.inl rfl
    · exact Or.inr ⟨_, rfl⟩

theorem extractGo_cases (env : DateEnv) (text : String) :
    ∀ ps : List Matcher, LogNormalizer.extractGo env text ps = "unknown" ∨
      ∃ t : Int, LogNormalizer.extractGo env text ps = isoOfMillis t := by
  intro ps
  induction ps with
  | nil => exact Or.inl rfl
  | cons p ps ih =>
    unfold LogNormalizer.extractGo
    cases hs : jsSearch p text with
    | none => simp only [hs]; exact ih
    | some m =>
      simp only [hs]
      split
      · exact normalizeTimestamp_cases env m
      · exact ih

theorem extractGo_all_invalid (env : DateEnv) (text : String) :
    ∀ ps : List Matcher,
      (∀ p ∈ ps, ∀ m, jsSearch p text = some m →
        LogNormalizer.isValidTimestamp env m = false) →
      LogNormalizer.extractGo env text ps = "unknown" := by
  intro ps
  induction ps with
  | nil => intro _; rfl
  | cons p ps ih =>
    intro h
    unfold LogNormalizer.extractGo
    cases hs : jsSearch p text with
    | none =>
      simp only [hs]
      exact ih (fun q hq => h q (List.mem_cons_of_mem _ hq))
    | some m =>
      simp only [hs]
      have hv := h p (List.mem_cons_self _ _) m hs
      simp only [hv, Bool.false_eq_true, if_false]
      exact ih (fun q hq => h q (List.mem_cons_of_mem _ hq))

theorem parseTimestamp_time_string (env : DateEnv) (s : String) :
    ∃ t : Int, BaseParser.parseTimestamp env s = isoOfMillis t := by
  unfold BaseParser.parseTimestamp
  split
  · exact ⟨_, rfl⟩
  · split
    · split
      · exact ⟨_, rfl⟩
      · exact ⟨_, rfl⟩
    · split
      · dsimp only
        split
        · exact ⟨_, rfl⟩
        · exact ⟨_, rfl⟩
      · split
        · exact ⟨_, rfl⟩
        · exact ⟨_, rfl⟩

/-- C1 (amended): `LogNormalizer.extractTimestamp` returns, for every
input and every date environment, either the `Date.toISOString` of some
UTC instant or the `unknown` sentinel, and returns `unknown` whenever
every pattern either fails to match or fails validation — never a
silent current-time default; both functions are total (never throw).
`BaseParser.parseTimestamp`, by contrast, never produces the `unknown`
sentinel: every path — including empty and unparseable input — returns
the ISO string of some instant (the current time in those cases, see
the counterexample). -/
theorem C1_timestamp_normalizer_amended :
    (∀ (env : DateEnv) (text : String),
      LogNormalizer.extractTimestamp env text = "unknown" ∨
        ∃ t : Int, LogNormalizer.extractTimestamp env text = isoOfMillis t) ∧
    (∀ (env : DateEnv) (text : String),
      (∀ p ∈ LogNormalizer.timestampPatterns, ∀ m, jsSearch p text = some m →
        LogNormalizer.isValidTimestamp env m = false) →
      LogNormalizer.extractTimestamp env text = "unknown") ∧
    (∀ (env : DateEnv) (timeStr : String),
      ∃ t : Int, BaseParser.parseTimestamp env timeStr = isoOfMillis t) := by
  refine ⟨?_, ?_, parseTimestamp_time_string⟩
  · intro env text
    unfold LogNormalizer.extractTimestamp
    split
    · exact Or.inl rfl
    · exact extractGo_cases env text _
  · intro env text h
    unfold LogNormalizer.extractTimestamp
    split
    · rfl
    · exact extractGo_all_invalid env text _ h

/-- C1 (counterexample): on empty or unparseable input,
`BaseParser.parseTimestamp` silently returns the current time (here the
epoch clock of `epochEnv`), not the `unknown` sentinel the claim
prescribes. -/
theorem C1_parseTimestamp_defaults_to_now :
    BaseParser.parseTimestamp epochEnv "" = "1970-01-01T00:00:00.000Z" ∧
    BaseParser.parseTimestamp epochEnv "" = isoOfMillis epochEnv.nowMillis ∧
    BaseParser.parseTimestamp epochEnv "" ≠ "unknown" ∧
    BaseParser.parseTimestamp epochEnv "not a timestamp" = isoOfMillis epochEnv.nowMillis ∧
    BaseParser.parseTimestamp epochEnv "not a timestamp" ≠ "unknown" := by
  refine ⟨by decide, by decide, by decide, by decide, by decide⟩

/-- C1 (witness): on text matching no timestamp pattern, the extractor
returns the sentinel. -/
theorem C1_timestamp_normalizer_amended_witness :
    LogNormalizer.extractTimestamp utcEnv "port: 54631" = "unknown" := by
  have hnone : ∀ p ∈ LogNormalizer.timestampPatterns,
      jsSearch p "port: 54631" = none := by decide
  exact C1_timestamp_normalizer_amended.2.1 utcEnv "port: 54631"
    (fun p hp m hm => by rw [hnone p hp] at hm; exact Option.noConfusion hm)
